import Mathlib

/-!
Verification of the minimix library (`src/library/reuse.ts`): the `Mix`
class-composition engine (`Mix`, `clonePrototype`, `clonePrototypeDeep`,
`hasPrototype`) and the `reuse` write-once memoizer.

The code operates on the JavaScript object graph, so the embedding uses an
explicit heap: objects are addressed by natural numbers; each object carries
an ordered own-property table (key, descriptor with value/writable/
enumerable/configurable flags), an optional prototype link, and an
extensibility flag, mirroring the parts of the JS object model the library
touches.  Fallible JS operations (`Object.defineProperty` on a frozen
object, member access on `undefined`, ...) are modelled with `Option` /
`Except`.  Loops over prototype chains are modelled with an explicit fuel
argument bounded by the heap size (a JS prototype chain built by these
operations never revisits an object, so the bound is never the limiting
factor in reachable states).
-/

set_option autoImplicit false

namespace Minimix

/-- Property keys: ordinary string-named properties plus the three
distinguished symbols used by the library (`Symbol("reuse")`,
`Symbol.hasInstance`, `Symbol("mixOf")`).  Symbols are unique, so each gets
its own constructor. -/
inductive Key where
  | str (s : String)
  | reuseSym
  | hasInstanceSym
  | mixOfSym
deriving DecidableEq

/-- The functions that can sit in a `Symbol.hasInstance` slot in states
reachable through this library: the built-in
`Function.prototype[Symbol.hasInstance]`, and the arrow-function wrapper
installed by `clonePrototype`, which closes over the previously read
predicate and the clone's address — `wrapperOrphan` is the wrapper whose
saved `originalInstanceOf` was `undefined`. -/
inductive HIFun where
  | native
  | wrapperOrphan (clone : Nat)
  | wrapper (orig : HIFun) (clone : Nat)
deriving DecidableEq

/-- Runtime values stored in properties.  `addr` is an object reference,
`hi` a `Symbol.hasInstance` function value, `addrs` the constructor-list
stored under the `mixOf` symbol. -/
inductive Value where
  | undef
  | str (s : String)
  | int (n : Int)
  | addr (a : Nat)
  | hi (f : HIFun)
  | addrs (l : List Nat)
deriving DecidableEq

/-- A JS property descriptor (data properties only; the library never
defines accessors). -/
structure PropDesc where
  value : Value
  writable : Bool
  enumerable : Bool
  configurable : Bool
deriving DecidableEq

/-- A JS object: ordered own-property table, prototype link, extensibility. -/
structure Obj where
  props : List (Key × PropDesc)
  proto : Option Nat
  extensible : Bool
deriving DecidableEq

/-- The heap, together with the addresses of the two ambient intrinsic
objects the library interacts with: `Object.prototype` (the explicit stop
condition in `clonePrototypeDeep`) and `Function.prototype` (which supplies
the inherited native `Symbol.hasInstance`). -/
structure Heap where
  objs : List Obj
  objectProto : Nat
  functionProto : Nat
deriving DecidableEq

def heapGet (h : Heap) (a : Nat) : Option Obj := h.objs[a]?

def heapSet (h : Heap) (a : Nat) (o : Obj) : Heap := { h with objs := h.objs.set a o }

def Heap.size (h : Heap) : Nat := h.objs.length

/-- First-match lookup in an ordered property table. -/
def getOwnD : List (Key × PropDesc) → Key → Option PropDesc
  | [], _ => none
  | p :: rest, k => if p.1 = k then some p.2 else getOwnD rest k

/-- Own-property lookup (`Object.getOwnPropertyDescriptor`). -/
def getOwnDesc (o : Obj) (k : Key) : Option PropDesc :=
  getOwnD o.props k

/-- Replace the descriptor stored under `k`, preserving the property's
position in the table (JS property order), appending when absent. -/
def setProps (props : List (Key × PropDesc)) (k : Key) (d : PropDesc) :
    List (Key × PropDesc) :=
  match props with
  | [] => [(k, d)]
  | p :: rest => if p.1 = k then (k, d) :: rest else p :: setProps rest k d

/-- `Object.defineProperty` restricted to the cases this library can reach:
redefinition of an existing own property requires it to be configurable,
adding a new property requires the object to be extensible; otherwise a
`TypeError` is thrown (`none`). -/
def defineOwn (h : Heap) (a : Nat) (k : Key) (d : PropDesc) : Option Heap :=
  match heapGet h a with
  | none => none
  | some o =>
    match getOwnDesc o k with
    | some old =>
      if old.configurable then some (heapSet h a { o with props := setProps o.props k d })
      else none
    | none =>
      if o.extensible then some (heapSet h a { o with props := o.props ++ [(k, d)] })
      else none

/-- JS assignment / `Object.assign` step on a property table ([[Set]] for
data properties): an existing own property must be writable (else strict
mode throws, `none`) and keeps its attributes; a new property is created
writable, enumerable and configurable. -/
def assignProp (props : List (Key × PropDesc)) (k : Key) (v : Value) :
    Option (List (Key × PropDesc)) :=
  match getOwnD props k with
  | some d =>
    if d.writable then some (setProps props k { d with value := v }) else none
  | none => some (props ++ [(k, ⟨v, true, true, true⟩)])

/-- `Object.assign(target, source)` on property tables: copy every own
enumerable property of the source, in property order. -/
def assignAll (tgt : List (Key × PropDesc)) : List (Key × PropDesc) →
    Option (List (Key × PropDesc))
  | [] => some tgt
  | (k, d) :: rest =>
    if d.enumerable then
      match assignProp tgt k d.value with
      | none => none
      | some tgt' => assignAll tgt' rest
    else assignAll tgt rest

/-- Fueled prototype-chain property lookup (the JS [[Get]] / `in` walk). -/
def getPropAux (h : Heap) : Nat → Option Nat → Key → Option PropDesc
  | 0, _, _ => none
  | _, none, _ => none
  | Nat.succ fuel, some a, k =>
    match heapGet h a with
    | none => none
    | some o =>
      match getOwnDesc o k with
      | some d => some d
      | none => getPropAux h fuel o.proto k

/-- Property lookup along the prototype chain starting at `a` itself. -/
def getProp (h : Heap) (a : Nat) (k : Key) : Option PropDesc :=
  getPropAux h h.objs.length (some a) k

def getPropValue (h : Heap) (a : Nat) (k : Key) : Option Value :=
  (getProp h a k).map PropDesc.value

/-- The `while (currentInstancePrototype)` loop body of `hasPrototype`:
walk prototype links comparing against `target`. -/
def hasProtoAux (h : Heap) : Nat → Option Nat → Nat → Bool
  | 0, _, _ => false
  | _, none, _ => false
  | Nat.succ fuel, some cur, target =>
    if cur = target then true
    else hasProtoAux h fuel ((heapGet h cur).bind Obj.proto) target

/-- `hasPrototype(instance, prototype)` from the source: does `prototype`
occur in `instance`'s prototype chain (excluding `instance` itself)? -/
def hasPrototype (h : Heap) (instAddr : Nat) (target : Nat) : Bool :=
  hasProtoAux h h.objs.length ((heapGet h instAddr).bind Obj.proto) target

/-- `OrdinaryHasInstance(C, x)`: read `C.prototype` and look for it in
`x`'s prototype chain.  (A non-object `C.prototype` throws in JS; that case
is unreachable for the class-shaped constructors considered here and is
modelled as `false`.) -/
def ordinaryHasInstance (h : Heap) (c : Nat) (x : Nat) : Bool :=
  match getPropValue h c (Key.str "prototype") with
  | some (Value.addr p) => hasPrototype h x p
  | _ => false

/-- Run a `Symbol.hasInstance` function value with a given `this` value
(`none` = `undefined`).  The built-in returns
`OrdinaryHasInstance(this, x)`, hence `false` when called detached (the
wrapper does `originalInstanceOf?.(instance)`, a call with `this`
undefined).  The wrapper returns
`originalInstanceOf?.(instance) || hasPrototype(instance, clone)`. -/
def runHI (h : Heap) : HIFun → Option Nat → Nat → Bool
  | HIFun.native, some c, x => ordinaryHasInstance h c x
  | HIFun.native, none, _ => false
  | HIFun.wrapperOrphan clone, _, x => hasPrototype h x clone
  | HIFun.wrapper orig clone, _, x => runHI h orig none x || hasPrototype h x clone

/-- The `instanceof` operator (the library's dynamic type-check): fetch
`Symbol.hasInstance` along the constructor's own/static-prototype chain and
call it with `this = c`; fall back to `OrdinaryHasInstance` when absent or
`undefined`. -/
def instanceOf (h : Heap) (x : Nat) (c : Nat) : Bool :=
  match getPropValue h c Key.hasInstanceSym with
  | some (Value.hi f) => runHI h f (some c) x
  | some Value.undef => ordinaryHasInstance h c x
  | some _ => false
  | none => ordinaryHasInstance h c x

/-- Coerce the value read for `originalInstanceOf` to a usable predicate
(the source casts to `((value: any) => boolean) | undefined`). -/
def asHI : Option Value → Option HIFun
  | some (Value.hi f) => some f
  | _ => none

/-- `clonePrototype(prototype)` from the source:
`Object.create(null, Object.getOwnPropertyDescriptors(prototype))`, then
`clone.constructor = prototype.constructor`, then augment
`prototype.constructor[Symbol.hasInstance]` with the wrapper (enumerable
false, configurable true, writable true).  Returns the clone's address.
Failure (`none`) corresponds to a thrown `TypeError` (missing prototype
object, `undefined` constructor, non-extensible constructor). -/
def clonePrototype (h : Heap) (protoAddr : Nat) : Option (Heap × Nat) :=
  match heapGet h protoAddr with
  | none => none
  | some po =>
    let ctorVal := getPropValue h protoAddr (Key.str "constructor")
    match assignProp po.props (Key.str "constructor") (ctorVal.getD Value.undef) with
    | none => none
    | some cloneProps =>
      let cloneAddr := h.objs.length
      let h1 : Heap :=
        { h with objs := h.objs ++ [{ props := cloneProps, proto := none, extensible := true }] }
      match ctorVal with
      | some (Value.addr c) =>
        let w := match asHI (getPropValue h1 c Key.hasInstanceSym) with
          | some f => HIFun.wrapper f cloneAddr
          | none => HIFun.wrapperOrphan cloneAddr
        match defineOwn h1 c Key.hasInstanceSym ⟨Value.hi w, true, false, true⟩ with
        | none => none
        | some h2 => some (h2, cloneAddr)
      | _ => none

/-- `Object.setPrototypeOf(a, p)`: a no-op when the prototype is unchanged,
otherwise requires `a` to be extensible. -/
def setProtoOf (h : Heap) (a : Nat) (p : Nat) : Option Heap :=
  match heapGet h a with
  | none => none
  | some o =>
    if o.proto = some p then some h
    else if o.extensible then some (heapSet h a { o with proto := some p })
    else none

/-- The `while (nextPrototype && nextPrototype !== Object.prototype)` loop
of `clonePrototypeDeep`: clone each ancestor, link it after the previous
clone, and advance.  Returns the final `lastPrototype`. -/
def cloneDeepAux : Nat → Heap → Nat → Option Nat → Option (Heap × Nat)
  | _, h, lastClone, none => some (h, lastClone)
  | fuel, h, lastClone, some np =>
    if np = h.objectProto then some (h, lastClone)
    else
      match fuel with
      | 0 => none
      | Nat.succ fuel' =>
        match clonePrototype h np with
        | none => none
        | some (h1, npClone) =>
          match setProtoOf h1 lastClone npClone with
          | none => none
          | some h2 => cloneDeepAux fuel' h2 npClone ((heapGet h2 np).bind Obj.proto)

/-- `clonePrototypeDeep(prototype)`: clone the head, then walk and clone
the ancestry up to (and excluding) `Object.prototype`.  Returns
`(heap, prototype clone, lastPrototype)`. -/
def clonePrototypeDeep (h : Heap) (protoAddr : Nat) : Option (Heap × Nat × Nat) :=
  match clonePrototype h protoAddr with
  | none => none
  | some (h1, cloneAddr) =>
    match cloneDeepAux h.objs.length h1 cloneAddr ((heapGet h1 protoAddr).bind Obj.proto) with
    | none => none
    | some (h2, lastP) => some (h2, cloneAddr, lastP)

/-- The arguments a constructor body is invoked with: an ordinary flat
argument list (`new C(...args)`), or — for the synthesized composite
constructor — one positional argument-group (array) per source.  (In JS
both are just argument lists whose entries may be arrays; the sum keeps
the embedding first-order.) -/
inductive InitArgs where
  | flat (args : List Value)
  | groups (gs : List (List Value))

/-- A constructor value: the address of its function object in the heap,
and the effect of running its body with `new` — the own properties the
new instance ends up with (`none` = the body throws). -/
structure Ctor where
  addr : Nat
  init : InitArgs → Option (List (Key × PropDesc))

/-- The `constructors.slice(1).forEach(...)` part of the synthesized
constructor: build each remaining source's throwaway instance with its
argument-group and `Object.assign` its own enumerable properties onto the
object under construction. -/
def dispatchAux (gs : List (List Value)) : List Ctor → Nat → List (Key × PropDesc) →
    Option (List (Key × PropDesc))
  | [], _, acc => some acc
  | c :: rest, i, acc =>
    match gs[i]? with
    | none => none
    | some g =>
      match c.init (InitArgs.flat g) with
      | none => none
      | some ps =>
        match assignAll acc ps with
        | none => none
        | some acc' => dispatchAux gs rest (i + 1) acc'

/-- The body of the synthesized composite constructor:
`super(...parameters[0])` runs the base initializer with the first
argument-group, then every remaining source is dispatched in order.
A missing argument-group (`parameters[i]` = `undefined`) makes the spread
throw (`none`); calling the composite with a flat argument list whose
entries are not arrays does the same. -/
def dispatchProps (constructors : List Ctor) (params : InitArgs) :
    Option (List (Key × PropDesc)) :=
  match params with
  | InitArgs.flat _ => none
  | InitArgs.groups gs =>
    match constructors with
    | [] => none
    | c0 :: rest =>
      match gs[0]? with
      | none => none
      | some g0 =>
        match c0.init (InitArgs.flat g0) with
        | none => none
        | some base => dispatchAux gs rest 1 base

/-- `firstConstructor.prototype` as an object address. -/
def protoAddrVal (h : Heap) (a : Nat) : Option Nat :=
  match getPropValue h a (Key.str "prototype") with
  | some (Value.addr p) => some p
  | _ => none

/-- The `for (const nextConstructor of constructors.slice(1))` loop of
`Mix`: deep-clone the next source's prototype, set it as the prototype of
the current `lastPrototype`, and re-read
`lastPrototype = Object.getPrototypeOf(lastPrototype)` (which is the head
clone just linked, not the deep clone's tail). -/
def mixChainLoop : Heap → Nat → List Ctor → Option (Heap × Nat)
  | h, lastP, [] => some (h, lastP)
  | h, lastP, c :: rest =>
    match protoAddrVal h c.addr with
    | none => none
    | some pc =>
      match clonePrototypeDeep h pc with
      | none => none
      | some (h1, headClone, _lastOfClone) =>
        match setProtoOf h1 lastP headClone with
        | none => none
        | some h2 =>
          match (heapGet h2 lastP).bind Obj.proto with
          | none => none
          | some newLast => mixChainLoop h2 newLast rest

/-- The `for (const nextConstructor of constructors)` statics pass:
`Object.assign(create, nextConstructor)` for every source, in order. -/
def staticsLoop : Heap → Nat → List Ctor → Option Heap
  | h, _, [] => some h
  | h, a, c :: rest =>
    match heapGet h a with
    | none => none
    | some tgt =>
      match heapGet h c.addr with
      | none => none
      | some src =>
        match assignAll tgt.props src.props with
        | none => none
        | some props' => staticsLoop (heapSet h a { tgt with props := props' }) a rest

/-- `return class {} as any` for an empty source list: a fresh plain class
(prototype object linked to `Object.prototype`, function object linked to
`Function.prototype`) whose instances have no own members. -/
def mkEmptyClass (h : Heap) : Heap × Ctor :=
  let protoAddr := h.objs.length
  let fnAddr := h.objs.length + 1
  let protoObj : Obj :=
    { props := [(Key.str "constructor", ⟨Value.addr fnAddr, true, false, true⟩)],
      proto := some h.objectProto, extensible := true }
  let fnObj : Obj :=
    { props := [(Key.str "prototype", ⟨Value.addr protoAddr, false, false, false⟩)],
      proto := some h.functionProto, extensible := true }
  ({ h with objs := h.objs ++ [protoObj, fnObj] }, ⟨fnAddr, fun _ => some []⟩)

/-- The object allocated for `create.prototype` (its `constructor`
back-reference points at `create`, the next address; its prototype is
initially `firstConstructor.prototype`, as for any `class extends`). -/
def createProtoObjOf (h3 : Heap) (pc0 : Nat) : Obj :=
  { props := [(Key.str "constructor", ⟨Value.addr (h3.objs.length + 1), true, false, true⟩)],
    proto := some pc0, extensible := true }

/-- The function object allocated for `create`: non-enumerable
`prototype`, the enumerable `mixOf` static field listing the sources, and
`firstConstructor` as static prototype (`class extends`). -/
def createFnObjOf (h3 : Heap) (cs : List Ctor) (c0 : Ctor) : Obj :=
  { props := [(Key.str "prototype", ⟨Value.addr h3.objs.length, false, false, false⟩),
              (Key.mixOfSym, ⟨Value.addrs (cs.map Ctor.addr), true, true, true⟩)],
    proto := some c0.addr, extensible := true }

/-- Allocation of `create.prototype` (at `h3.objs.length`) and `create`
(at `h3.objs.length + 1`). -/
def allocCreate (h3 : Heap) (pc0 : Nat) (cs : List Ctor) (c0 : Ctor) : Heap :=
  { h3 with objs := h3.objs ++ [createProtoObjOf h3 pc0, createFnObjOf h3 cs c0] }

/-- `Mix(...constructors)` from the source, step by step:
empty list → `class {}`; singleton → the constructor itself; otherwise
(1) build the prototype chain (deep-clone the first source's prototype,
loop over the rest, finally point `lastPrototype` at the last source's own
original prototype), (2) synthesize `create = class extends
firstConstructor` with the `mixOf` static field and the dispatching
constructor body, (3) `Object.setPrototypeOf(create.prototype, prototype)`,
(4) `Object.assign(create, nextConstructor)` for every source. -/
def Mix (h : Heap) (constructors : List Ctor) : Option (Heap × Ctor) :=
  match constructors with
  | [] => some (mkEmptyClass h)
  | [c] => some (h, c)
  | c0 :: c1 :: rest =>
    match (c0 :: c1 :: rest).getLast? with
    | none => none
    | some lastC =>
      match protoAddrVal h c0.addr with
      | none => none
      | some pc0 =>
        match clonePrototypeDeep h pc0 with
        | none => none
        | some (h1, proto0, last0) =>
          match mixChainLoop h1 last0 (c1 :: rest) with
          | none => none
          | some (h2, lastP) =>
            match protoAddrVal h2 lastC.addr with
            | none => none
            | some lcp =>
              match setProtoOf h2 lastP lcp with
              | none => none
              | some h3 =>
                match setProtoOf (allocCreate h3 pc0 (c0 :: c1 :: rest) c0) h3.objs.length proto0 with
                | none => none
                | some h5 =>
                  match staticsLoop h5 (h3.objs.length + 1) (c0 :: c1 :: rest) with
                  | none => none
                  | some h6 => some (h6, ⟨h3.objs.length + 1, dispatchProps (c0 :: c1 :: rest)⟩)

/-- `new c(...args)`: allocate a fresh object whose prototype is
`c.prototype` and whose own properties are produced by the constructor
body. -/
def newInstance (h : Heap) (c : Ctor) (args : InitArgs) : Option (Heap × Nat) :=
  match protoAddrVal h c.addr with
  | none => none
  | some p =>
    match c.init args with
    | none => none
    | some props =>
      some ({ h with objs := h.objs ++ [{ props := props, proto := some p, extensible := true }] },
            h.objs.length)

/-- `reuse(container, value)` from the source: `reuseSymbol in container`
(a full prototype-chain check) returns the stored value; otherwise
`Object.defineProperty` installs the non-writable, non-enumerable,
non-configurable slot — which throws (`Except.error`) when the container
is non-extensible. -/
def reuse (h : Heap) (container : Nat) (value : Value) : Except Unit (Value × Heap) :=
  match getPropValue h container Key.reuseSym with
  | some v => Except.ok (v, h)
  | none =>
    match defineOwn h container Key.reuseSym ⟨value, false, false, false⟩ with
    | none => Except.error ()
    | some h' => Except.ok (value, h')

/-! ### Ambient scenario builders (the JS environment the library runs in) -/

/-- The minimal ambient realm: `Object.prototype` at address 0 and
`Function.prototype` at address 1 carrying the native
`Symbol.hasInstance` (non-writable, non-enumerable, non-configurable). -/
def baseHeap : Heap :=
  { objs := [ { props := [], proto := none, extensible := true },
              { props := [(Key.hasInstanceSym, ⟨Value.hi HIFun.native, false, false, false⟩)],
                proto := some 0, extensible := true } ],
    objectProto := 0, functionProto := 1 }

/-- Model of a JS `class X [extends P] { ... }` declaration: allocates the
prototype object (non-enumerable `constructor` back-reference plus the
prototype methods) and the function object (non-enumerable `prototype`
plus the enumerable static fields), with the standard prototype links. -/
def mkClass (h : Heap) (parent : Option Ctor) (methods : List (String × Value))
    (statics : List (String × Value))
    (init : InitArgs → Option (List (Key × PropDesc))) : Heap × Ctor :=
  let protoAddr := h.objs.length
  let fnAddr := h.objs.length + 1
  let parentProto :=
    match parent with
    | some pc => (protoAddrVal h pc.addr).getD h.objectProto
    | none => h.objectProto
  let parentFn :=
    match parent with
    | some pc => pc.addr
    | none => h.functionProto
  let protoObj : Obj :=
    { props := (Key.str "constructor", ⟨Value.addr fnAddr, true, false, true⟩) ::
        methods.map (fun m => (Key.str m.1, ⟨m.2, true, false, true⟩)),
      proto := some parentProto, extensible := true }
  let fnObj : Obj :=
    { props := (Key.str "prototype", ⟨Value.addr protoAddr, false, false, false⟩) ::
        statics.map (fun m => (Key.str m.1, ⟨m.2, true, true, true⟩)),
      proto := some parentFn, extensible := true }
  ({ h with objs := h.objs ++ [protoObj, fnObj] }, ⟨fnAddr, init⟩)

/-! ### Specification-side definitions

These follow the spec's wording (not the implementation) and are compared
against the implementation in the refinement theorems below. -/

/-- Value under a key in a property table. -/
def lookupValue (ps : List (Key × PropDesc)) (k : Key) : Option Value :=
  (getOwnD ps k).map PropDesc.value

/-- Spec-side: the value of the *last* own enumerable entry under `k` in a
property table — the member that an `Object.assign` from this table would
leave under `k` on the target. -/
def lastEnumVal (ps : List (Key × PropDesc)) (k : Key) : Option Value :=
  ps.foldl (fun acc p => if p.1 = k ∧ p.2.enumerable = true then some p.2.value else acc) none

/-- Spec-side: walking the remaining sources in order with their
argument-groups (`gs[i]` for source `i`), the value under `k` that the
last throwaway instance owning an enumerable `k` contributes. -/
def throwawayEnumVal (gs : List (List Value)) : List Ctor → Nat → Key → Option Value
  | [], _, _ => none
  | c :: rest, i, k =>
    match throwawayEnumVal gs rest (i + 1) k with
    | some v => some v
    | none =>
      match gs[i]? with
      | none => none
      | some g =>
        match c.init (InitArgs.flat g) with
        | none => none
        | some ps => lastEnumVal ps k

/-- Spec-side: iterating source property tables in order, the value under
`k` contributed by the last source owning an enumerable `k` (the
class-level-data merge of §4.4 of the spec). -/
def staticsEnumVal : List (List (Key × PropDesc)) → Key → Option Value
  | [], _ => none
  | ps :: rest, k =>
    match staticsEnumVal rest k with
    | some v => some v
    | none => lastEnumVal ps k

/-- The member-table duplicates a `Symbol.hasInstance` nest recognizes
(the `clone` captured by each wrapper layer). -/
def cloneSet : HIFun → List Nat
  | HIFun.native => []
  | HIFun.wrapperOrphan c => [c]
  | HIFun.wrapper f c => c :: cloneSet f

/-- Spec-side: the shape of a `Symbol.hasInstance` value produced by
augmentations during a composition over the base heap `h`: a nest of
wrappers, each capturing a freshly allocated duplicate (address ≥ the base
heap size), bottoming out at a predicate that was readable from some
pre-existing object before the composition (or at `undefined`). -/
inductive AdditiveWrap (h : Heap) : HIFun → Prop where
  | orphan (c : Nat) (hc : h.objs.length ≤ c) : AdditiveWrap h (HIFun.wrapperOrphan c)
  | base (f : HIFun) (c : Nat) (hc : h.objs.length ≤ c) (a : Nat) (ha : a < h.objs.length)
      (hf : asHI (getPropValue h a Key.hasInstanceSym) = some f) :
      AdditiveWrap h (HIFun.wrapper f c)
  | step (f : HIFun) (c : Nat) (hf : AdditiveWrap h f) (hc : h.objs.length ≤ c) :
      AdditiveWrap h (HIFun.wrapper f c)

/-- A closed heap: every prototype link points at an allocated object
(true of every real JS heap). -/
def wfClosed (h : Heap) : Bool :=
  h.objs.all (fun o => match o.proto with
    | none => true
    | some b => decide (b < h.objs.length))

/-- The frame relation between a heap and its state after (part of) a
composition: all pre-existing objects keep their prototype link, their
extensibility and every own property other than `Symbol.hasInstance`
(including the merge-relevant view `lastEnumVal` of their tables), and
their `Symbol.hasInstance` is either untouched or redefined to an
additive wrapper nest (`AdditiveWrap`). -/
structure FramedExt (h h' : Heap) : Prop where
  size_le : h.objs.length ≤ h'.objs.length
  objectProto_eq : h'.objectProto = h.objectProto
  functionProto_eq : h'.functionProto = h.functionProto
  old : ∀ a o, heapGet h a = some o →
    ∃ o', heapGet h' a = some o' ∧ o'.proto = o.proto ∧ o'.extensible = o.extensible ∧
      (∀ k, k ≠ Key.hasInstanceSym → getOwnD o'.props k = getOwnD o.props k) ∧
      (∀ k, k ≠ Key.hasInstanceSym → lastEnumVal o'.props k = lastEnumVal o.props k) ∧
      (getOwnD o'.props Key.hasInstanceSym = getOwnD o.props Key.hasInstanceSym ∨
        ∃ f, getOwnD o'.props Key.hasInstanceSym = some ⟨Value.hi f, true, false, true⟩ ∧
          AdditiveWrap h f)

/-- The prototype link of the object at `a` (`Object.getPrototypeOf`). -/
def protoAt (h : Heap) (a : Nat) : Option Nat := (heapGet h a).bind Obj.proto

/-- An address-increasing prototype path: `b` is reachable from `a` in
`n` prototype steps, each step moving to a strictly larger address.  The
duplicates of a composition are allocated in chain order, so the chain
under the composite prototype is of this shape. -/
inductive UpChain (h : Heap) : Nat → Nat → Nat → Prop where
  | refl (a : Nat) : UpChain h 0 a a
  | step (a x b n : Nat) (hp : protoAt h a = some x) (hax : a < x)
      (tail : UpChain h n x b) : UpChain h (n + 1) a b

/-- The object at `a` owns a `Symbol.hasInstance` entry (with the flags
the augmentation writes) whose wrapper nest recognizes the duplicate
`cl`. -/
def OwnHIHas (h : Heap) (a cl : Nat) : Prop :=
  ∃ o w, heapGet h a = some o ∧
    getOwnD o.props Key.hasInstanceSym = some ⟨Value.hi w, true, false, true⟩ ∧
    cl ∈ cloneSet w

/-- The JS class shape the composition relies on: the constructor owns a
`prototype` property whose object owns a `constructor` property pointing
back at the constructor (true of every `class` declaration). -/
def ClassShape (h : Heap) (c : Nat) : Prop :=
  ∃ o d pc po d2, heapGet h c = some o ∧
    getOwnD o.props (Key.str "prototype") = some d ∧ d.value = Value.addr pc ∧
    heapGet h pc = some po ∧
    getOwnD po.props (Key.str "constructor") = some d2 ∧ d2.value = Value.addr c

/-! ### Concrete scenarios -/

/-- `class Foo { makeFoo() {...} }` over the base realm: prototype at 2,
constructor at 3. -/
def fooStep : Heap × Ctor :=
  mkClass baseHeap none [("makeFoo", Value.str "foo")] [] (fun _ => some [])

/-- `class Bar { makeBar() {...} }`: prototype at 4, constructor at 5. -/
def barStep : Heap × Ctor :=
  mkClass fooStep.1 none [("makeBar", Value.str "bar")] [] (fun _ => some [])

/-- `Mix(Foo, Bar)` over the two flat classes. -/
def fooBarMix : Option (Heap × Ctor) := Mix barStep.1 [fooStep.2, barStep.2]

/-- The heap produced by `Mix(Foo, Bar)`, written out: addresses 6 and 7
are the member-table duplicates of `Foo.prototype` and `Bar.prototype`,
8 is `create.prototype`, 9 is `create`; both source constructors carry the
`Symbol.hasInstance` wrapper over their duplicate. -/
def fooBarHeap : Heap :=
  ⟨[⟨[], none, true⟩,
    ⟨[(Key.hasInstanceSym, ⟨Value.hi HIFun.native, false, false, false⟩)], some 0, true⟩,
    ⟨[(Key.str "constructor", ⟨Value.addr 3, true, false, true⟩), (Key.str "makeFoo", ⟨Value.str "foo", true, false, true⟩)], some 0, true⟩,
    ⟨[(Key.str "prototype", ⟨Value.addr 2, false, false, false⟩), (Key.hasInstanceSym, ⟨Value.hi (HIFun.wrapper HIFun.native 6), true, false, true⟩)], some 1, true⟩,
    ⟨[(Key.str "constructor", ⟨Value.addr 5, true, false, true⟩), (Key.str "makeBar", ⟨Value.str "bar", true, false, true⟩)], some 0, true⟩,
    ⟨[(Key.str "prototype", ⟨Value.addr 4, false, false, false⟩), (Key.hasInstanceSym, ⟨Value.hi (HIFun.wrapper HIFun.native 7), true, false, true⟩)], some 1, true⟩,
    ⟨[(Key.str "constructor", ⟨Value.addr 3, true, false, true⟩), (Key.str "makeFoo", ⟨Value.str "foo", true, false, true⟩)], some 7, true⟩,
    ⟨[(Key.str "constructor", ⟨Value.addr 5, true, false, true⟩), (Key.str "makeBar", ⟨Value.str "bar", true, false, true⟩)], some 4, true⟩,
    ⟨[(Key.str "constructor", ⟨Value.addr 9, true, false, true⟩)], some 6, true⟩,
    ⟨[(Key.str "prototype", ⟨Value.addr 8, false, false, false⟩), (Key.mixOfSym, ⟨Value.addrs [3, 5], true, true, true⟩)], some 3, true⟩],
   0, 1⟩

/-- `fooBarHeap` with a composite instance (`new FooBar([], [])`) appended
at address 10: its prototype is `create.prototype` (8). -/
def fooBarInstHeap : Heap :=
  { fooBarHeap with objs := fooBarHeap.objs ++ [⟨[], some 8, true⟩] }

/-- `fooBarHeap` with a plain `new Foo()` appended at address 10: its
prototype is the original `Foo.prototype` (2). -/
def plainFooHeap : Heap :=
  { fooBarHeap with objs := fooBarHeap.objs ++ [⟨[], some 2, true⟩] }

/-- The pre-mix heap (`Foo` and `Bar` declared, nothing composed) with a
plain `new Foo()` appended at address 6. -/
def preMixFooInstHeap : Heap :=
  ⟨[⟨[], none, true⟩,
    ⟨[(Key.hasInstanceSym, ⟨Value.hi HIFun.native, false, false, false⟩)], some 0, true⟩,
    ⟨[(Key.str "constructor", ⟨Value.addr 3, true, false, true⟩), (Key.str "makeFoo", ⟨Value.str "foo", true, false, true⟩)], some 0, true⟩,
    ⟨[(Key.str "prototype", ⟨Value.addr 2, false, false, false⟩)], some 1, true⟩,
    ⟨[(Key.str "constructor", ⟨Value.addr 5, true, false, true⟩), (Key.str "makeBar", ⟨Value.str "bar", true, false, true⟩)], some 0, true⟩,
    ⟨[(Key.str "prototype", ⟨Value.addr 4, false, false, false⟩)], some 1, true⟩,
    ⟨[], some 2, true⟩],
   0, 1⟩

/-! Scenario for C3: `class A {}`, `class P { m() {...} }`,
`class B extends P {}`, `class C {}`, then `Mix(A, B, C)` — the middle
source `B` has a member-table ancestor (`P.prototype`) carrying `m`. -/

/-- `class A {}`: prototype 2, constructor 3. -/
def aStep : Heap × Ctor := mkClass baseHeap none [] [] (fun _ => some [])

/-- `class P { m() {...} }`: prototype 4, constructor 5. -/
def pStep : Heap × Ctor := mkClass aStep.1 none [("m", Value.str "mval")] [] (fun _ => some [])

/-- `class B extends P {}`: prototype 6, constructor 7. -/
def bStep : Heap × Ctor := mkClass pStep.1 (some pStep.2) [] [] (fun _ => some [])

/-- `class C {}`: prototype 8, constructor 9. -/
def cStep : Heap × Ctor := mkClass bStep.1 none [] [] (fun _ => some [])

/-- The heap produced by `Mix(A, B, C)`: 10/11/13 are the head duplicates
of `A.prototype`/`B.prototype`/`C.prototype`, 12 is the duplicate of
`P.prototype` — orphaned (`proto := none`, nothing links to it), because
the loop re-reads `lastPrototype = Object.getPrototypeOf(lastPrototype)`,
which is the head duplicate, and then overwrites the head duplicate's
prototype link in the next step; 14/15 are `create.prototype`/`create`. -/
def abcHeap : Heap :=
  ⟨[⟨[], none, true⟩,
    ⟨[(Key.hasInstanceSym, ⟨Value.hi HIFun.native, false, false, false⟩)], some 0, true⟩,
    ⟨[(Key.str "constructor", ⟨Value.addr 3, true, false, true⟩)], some 0, true⟩,
    ⟨[(Key.str "prototype", ⟨Value.addr 2, false, false, false⟩), (Key.hasInstanceSym, ⟨Value.hi (HIFun.wrapper HIFun.native 10), true, false, true⟩)], some 1, true⟩,
    ⟨[(Key.str "constructor", ⟨Value.addr 5, true, false, true⟩), (Key.str "m", ⟨Value.str "mval", true, false, true⟩)], some 0, true⟩,
    ⟨[(Key.str "prototype", ⟨Value.addr 4, false, false, false⟩), (Key.hasInstanceSym, ⟨Value.hi (HIFun.wrapper HIFun.native 12), true, false, true⟩)], some 1, true⟩,
    ⟨[(Key.str "constructor", ⟨Value.addr 7, true, false, true⟩)], some 4, true⟩,
    ⟨[(Key.str "prototype", ⟨Value.addr 6, false, false, false⟩), (Key.hasInstanceSym, ⟨Value.hi (HIFun.wrapper HIFun.native 11), true, false, true⟩)], some 5, true⟩,
    ⟨[(Key.str "constructor", ⟨Value.addr 9, true, false, true⟩)], some 0, true⟩,
    ⟨[(Key.str "prototype", ⟨Value.addr 8, false, false, false⟩), (Key.hasInstanceSym, ⟨Value.hi (HIFun.wrapper HIFun.native 13), true, false, true⟩)], some 1, true⟩,
    ⟨[(Key.str "constructor", ⟨Value.addr 3, true, false, true⟩)], some 11, true⟩,
    ⟨[(Key.str "constructor", ⟨Value.addr 7, true, false, true⟩)], some 13, true⟩,
    ⟨[(Key.str "constructor", ⟨Value.addr 5, true, false, true⟩), (Key.str "m", ⟨Value.str "mval", true, false, true⟩)], none, true⟩,
    ⟨[(Key.str "constructor", ⟨Value.addr 9, true, false, true⟩)], some 8, true⟩,
    ⟨[(Key.str "constructor", ⟨Value.addr 15, true, false, true⟩)], some 10, true⟩,
    ⟨[(Key.str "prototype", ⟨Value.addr 14, false, false, false⟩), (Key.mixOfSym, ⟨Value.addrs [3, 7, 9], true, true, true⟩)], some 3, true⟩],
   0, 1⟩

/-- The pre-mix heap of the C3 scenario (`= cStep.1`), written out. -/
def abcBase : Heap :=
  ⟨[⟨[], none, true⟩,
    ⟨[(Key.hasInstanceSym, ⟨Value.hi HIFun.native, false, false, false⟩)], some 0, true⟩,
    ⟨[(Key.str "constructor", ⟨Value.addr 3, true, false, true⟩)], some 0, true⟩,
    ⟨[(Key.str "prototype", ⟨Value.addr 2, false, false, false⟩)], some 1, true⟩,
    ⟨[(Key.str "constructor", ⟨Value.addr 5, true, false, true⟩), (Key.str "m", ⟨Value.str "mval", true, false, true⟩)], some 0, true⟩,
    ⟨[(Key.str "prototype", ⟨Value.addr 4, false, false, false⟩)], some 1, true⟩,
    ⟨[(Key.str "constructor", ⟨Value.addr 7, true, false, true⟩)], some 4, true⟩,
    ⟨[(Key.str "prototype", ⟨Value.addr 6, false, false, false⟩)], some 5, true⟩,
    ⟨[(Key.str "constructor", ⟨Value.addr 9, true, false, true⟩)], some 0, true⟩,
    ⟨[(Key.str "prototype", ⟨Value.addr 8, false, false, false⟩)], some 1, true⟩],
   0, 1⟩

/-- C3 scenario after `clonePrototypeDeep(A.prototype)` (clone 10). -/
def abcH1 : Heap :=
  ⟨[⟨[], none, true⟩,
    ⟨[(Key.hasInstanceSym, ⟨Value.hi HIFun.native, false, false, false⟩)], some 0, true⟩,
    ⟨[(Key.str "constructor", ⟨Value.addr 3, true, false, true⟩)], some 0, true⟩,
    ⟨[(Key.str "prototype", ⟨Value.addr 2, false, false, false⟩), (Key.hasInstanceSym, ⟨Value.hi (HIFun.wrapper HIFun.native 10), true, false, true⟩)], some 1, true⟩,
    ⟨[(Key.str "constructor", ⟨Value.addr 5, true, false, true⟩), (Key.str "m", ⟨Value.str "mval", true, false, true⟩)], some 0, true⟩,
    ⟨[(Key.str "prototype", ⟨Value.addr 4, false, false, false⟩)], some 1, true⟩,
    ⟨[(Key.str "constructor", ⟨Value.addr 7, true, false, true⟩)], some 4, true⟩,
    ⟨[(Key.str "prototype", ⟨Value.addr 6, false, false, false⟩)], some 5, true⟩,
    ⟨[(Key.str "constructor", ⟨Value.addr 9, true, false, true⟩)], some 0, true⟩,
    ⟨[(Key.str "prototype", ⟨Value.addr 8, false, false, false⟩)], some 1, true⟩,
    ⟨[(Key.str "constructor", ⟨Value.addr 3, true, false, true⟩)], none, true⟩],
   0, 1⟩

/-- C3 scenario, chain-loop iteration for `B`, after
`clonePrototypeDeep(B.prototype)` (clones 11 and 12, 11 → 12). -/
def abcHB1 : Heap :=
  ⟨[⟨[], none, true⟩,
    ⟨[(Key.hasInstanceSym, ⟨Value.hi HIFun.native, false, false, false⟩)], some 0, true⟩,
    ⟨[(Key.str "constructor", ⟨Value.addr 3, true, false, true⟩)], some 0, true⟩,
    ⟨[(Key.str "prototype", ⟨Value.addr 2, false, false, false⟩), (Key.hasInstanceSym, ⟨Value.hi (HIFun.wrapper HIFun.native 10), true, false, true⟩)], some 1, true⟩,
    ⟨[(Key.str "constructor", ⟨Value.addr 5, true, false, true⟩), (Key.str "m", ⟨Value.str "mval", true, false, true⟩)], some 0, true⟩,
    ⟨[(Key.str "prototype", ⟨Value.addr 4, false, false, false⟩), (Key.hasInstanceSym, ⟨Value.hi (HIFun.wrapper HIFun.native 12), true, false, true⟩)], some 1, true⟩,
    ⟨[(Key.str "constructor", ⟨Value.addr 7, true, false, true⟩)], some 4, true⟩,
    ⟨[(Key.str "prototype", ⟨Value.addr 6, false, false, false⟩), (Key.hasInstanceSym, ⟨Value.hi (HIFun.wrapper HIFun.native 11), true, false, true⟩)], some 5, true⟩,
    ⟨[(Key.str "constructor", ⟨Value.addr 9, true, false, true⟩)], some 0, true⟩,
    ⟨[(Key.str "prototype", ⟨Value.addr 8, false, false, false⟩)], some 1, true⟩,
    ⟨[(Key.str "constructor", ⟨Value.addr 3, true, false, true⟩)], none, true⟩,
    ⟨[(Key.str "constructor", ⟨Value.addr 7, true, false, true⟩)], some 12, true⟩,
    ⟨[(Key.str "constructor", ⟨Value.addr 5, true, false, true⟩), (Key.str "m", ⟨Value.str "mval", true, false, true⟩)], none, true⟩],
   0, 1⟩

/-- C3 scenario, after linking 10 → 11 (`lastPrototype` is re-read as the
head clone 11, not the clone tail 12). -/
def abcHB2 : Heap :=
  ⟨[⟨[], none, true⟩,
    ⟨[(Key.hasInstanceSym, ⟨Value.hi HIFun.native, false, false, false⟩)], some 0, true⟩,
    ⟨[(Key.str "constructor", ⟨Value.addr 3, true, false, true⟩)], some 0, true⟩,
    ⟨[(Key.str "prototype", ⟨Value.addr 2, false, false, false⟩), (Key.hasInstanceSym, ⟨Value.hi (HIFun.wrapper HIFun.native 10), true, false, true⟩)], some 1, true⟩,
    ⟨[(Key.str "constructor", ⟨Value.addr 5, true, false, true⟩), (Key.str "m", ⟨Value.str "mval", true, false, true⟩)], some 0, true⟩,
    ⟨[(Key.str "prototype", ⟨Value.addr 4, false, false, false⟩), (Key.hasInstanceSym, ⟨Value.hi (HIFun.wrapper HIFun.native 12), true, false, true⟩)], some 1, true⟩,
    ⟨[(Key.str "constructor", ⟨Value.addr 7, true, false, true⟩)], some 4, true⟩,
    ⟨[(Key.str "prototype", ⟨Value.addr 6, false, false, false⟩), (Key.hasInstanceSym, ⟨Value.hi (HIFun.wrapper HIFun.native 11), true, false, true⟩)], some 5, true⟩,
    ⟨[(Key.str "constructor", ⟨Value.addr 9, true, false, true⟩)], some 0, true⟩,
    ⟨[(Key.str "prototype", ⟨Value.addr 8, false, false, false⟩)], some 1, true⟩,
    ⟨[(Key.str "constructor", ⟨Value.addr 3, true, false, true⟩)], some 11, true⟩,
    ⟨[(Key.str "constructor", ⟨Value.addr 7, true, false, true⟩)], some 12, true⟩,
    ⟨[(Key.str "constructor", ⟨Value.addr 5, true, false, true⟩), (Key.str "m", ⟨Value.str "mval", true, false, true⟩)], none, true⟩],
   0, 1⟩

/-- C3 scenario, chain-loop iteration for `C`, after
`clonePrototypeDeep(C.prototype)` (clone 13). -/
def abcHC1 : Heap :=
  ⟨[⟨[], none, true⟩,
    ⟨[(Key.hasInstanceSym, ⟨Value.hi HIFun.native, false, false, false⟩)], some 0, true⟩,
    ⟨[(Key.str "constructor", ⟨Value.addr 3, true, false, true⟩)], some 0, true⟩,
    ⟨[(Key.str "prototype", ⟨Value.addr 2, false, false, false⟩), (Key.hasInstanceSym, ⟨Value.hi (HIFun.wrapper HIFun.native 10), true, false, true⟩)], some 1, true⟩,
    ⟨[(Key.str "constructor", ⟨Value.addr 5, true, false, true⟩), (Key.str "m", ⟨Value.str "mval", true, false, true⟩)], some 0, true⟩,
    ⟨[(Key.str "prototype", ⟨Value.addr 4, false, false, false⟩), (Key.hasInstanceSym, ⟨Value.hi (HIFun.wrapper HIFun.native 12), true, false, true⟩)], some 1, true⟩,
    ⟨[(Key.str "constructor", ⟨Value.addr 7, true, false, true⟩)], some 4, true⟩,
    ⟨[(Key.str "prototype", ⟨Value.addr 6, false, false, false⟩), (Key.hasInstanceSym, ⟨Value.hi (HIFun.wrapper HIFun.native 11), true, false, true⟩)], some 5, true⟩,
    ⟨[(Key.str "constructor", ⟨Value.addr 9, true, false, true⟩)], some 0, true⟩,
    ⟨[(Key.str "prototype", ⟨Value.addr 8, false, false, false⟩), (Key.hasInstanceSym, ⟨Value.hi (HIFun.wrapper HIFun.native 13), true, false, true⟩)], some 1, true⟩,
    ⟨[(Key.str "constructor", ⟨Value.addr 3, true, false, true⟩)], some 11, true⟩,
    ⟨[(Key.str "constructor", ⟨Value.addr 7, true, false, true⟩)], some 12, true⟩,
    ⟨[(Key.str "constructor", ⟨Value.addr 5, true, false, true⟩), (Key.str "m", ⟨Value.str "mval", true, false, true⟩)], none, true⟩,
    ⟨[(Key.str "constructor", ⟨Value.addr 9, true, false, true⟩)], none, true⟩],
   0, 1⟩

/-- C3 scenario after the chain loop over `[B, C]`: clones 11 (head of
`B.prototype`'s deep clone), 12 (clone of `P.prototype`, carrying `m`) and
13 (clone of `C.prototype`); 10 → 11 → 13 while 12 is left orphaned. -/
def abcH2 : Heap :=
  ⟨[⟨[], none, true⟩,
    ⟨[(Key.hasInstanceSym, ⟨Value.hi HIFun.native, false, false, false⟩)], some 0, true⟩,
    ⟨[(Key.str "constructor", ⟨Value.addr 3, true, false, true⟩)], some 0, true⟩,
    ⟨[(Key.str "prototype", ⟨Value.addr 2, false, false, false⟩), (Key.hasInstanceSym, ⟨Value.hi (HIFun.wrapper HIFun.native 10), true, false, true⟩)], some 1, true⟩,
    ⟨[(Key.str "constructor", ⟨Value.addr 5, true, false, true⟩), (Key.str "m", ⟨Value.str "mval", true, false, true⟩)], some 0, true⟩,
    ⟨[(Key.str "prototype", ⟨Value.addr 4, false, false, false⟩), (Key.hasInstanceSym, ⟨Value.hi (HIFun.wrapper HIFun.native 12), true, false, true⟩)], some 1, true⟩,
    ⟨[(Key.str "constructor", ⟨Value.addr 7, true, false, true⟩)], some 4, true⟩,
    ⟨[(Key.str "prototype", ⟨Value.addr 6, false, false, false⟩), (Key.hasInstanceSym, ⟨Value.hi (HIFun.wrapper HIFun.native 11), true, false, true⟩)], some 5, true⟩,
    ⟨[(Key.str "constructor", ⟨Value.addr 9, true, false, true⟩)], some 0, true⟩,
    ⟨[(Key.str "prototype", ⟨Value.addr 8, false, false, false⟩), (Key.hasInstanceSym, ⟨Value.hi (HIFun.wrapper HIFun.native 13), true, false, true⟩)], some 1, true⟩,
    ⟨[(Key.str "constructor", ⟨Value.addr 3, true, false, true⟩)], some 11, true⟩,
    ⟨[(Key.str "constructor", ⟨Value.addr 7, true, false, true⟩)], some 13, true⟩,
    ⟨[(Key.str "constructor", ⟨Value.addr 5, true, false, true⟩), (Key.str "m", ⟨Value.str "mval", true, false, true⟩)], none, true⟩,
    ⟨[(Key.str "constructor", ⟨Value.addr 9, true, false, true⟩)], none, true⟩],
   0, 1⟩

/-- C3 scenario after `Object.setPrototypeOf(lastPrototype,
lastConstructor.prototype)` (13 → 8). -/
def abcH3 : Heap :=
  ⟨[⟨[], none, true⟩,
    ⟨[(Key.hasInstanceSym, ⟨Value.hi HIFun.native, false, false, false⟩)], some 0, true⟩,
    ⟨[(Key.str "constructor", ⟨Value.addr 3, true, false, true⟩)], some 0, true⟩,
    ⟨[(Key.str "prototype", ⟨Value.addr 2, false, false, false⟩), (Key.hasInstanceSym, ⟨Value.hi (HIFun.wrapper HIFun.native 10), true, false, true⟩)], some 1, true⟩,
    ⟨[(Key.str "constructor", ⟨Value.addr 5, true, false, true⟩), (Key.str "m", ⟨Value.str "mval", true, false, true⟩)], some 0, true⟩,
    ⟨[(Key.str "prototype", ⟨Value.addr 4, false, false, false⟩), (Key.hasInstanceSym, ⟨Value.hi (HIFun.wrapper HIFun.native 12), true, false, true⟩)], some 1, true⟩,
    ⟨[(Key.str "constructor", ⟨Value.addr 7, true, false, true⟩)], some 4, true⟩,
    ⟨[(Key.str "prototype", ⟨Value.addr 6, false, false, false⟩), (Key.hasInstanceSym, ⟨Value.hi (HIFun.wrapper HIFun.native 11), true, false, true⟩)], some 5, true⟩,
    ⟨[(Key.str "constructor", ⟨Value.addr 9, true, false, true⟩)], some 0, true⟩,
    ⟨[(Key.str "prototype", ⟨Value.addr 8, false, false, false⟩), (Key.hasInstanceSym, ⟨Value.hi (HIFun.wrapper HIFun.native 13), true, false, true⟩)], some 1, true⟩,
    ⟨[(Key.str "constructor", ⟨Value.addr 3, true, false, true⟩)], some 11, true⟩,
    ⟨[(Key.str "constructor", ⟨Value.addr 7, true, false, true⟩)], some 13, true⟩,
    ⟨[(Key.str "constructor", ⟨Value.addr 5, true, false, true⟩), (Key.str "m", ⟨Value.str "mval", true, false, true⟩)], none, true⟩,
    ⟨[(Key.str "constructor", ⟨Value.addr 9, true, false, true⟩)], some 8, true⟩],
   0, 1⟩

/-- `abcHeap` with a composite instance (`new ABC([], [], [])`) appended
at address 16. -/
def abcInstHeap : Heap :=
  { abcHeap with objs := abcHeap.objs ++ [⟨[], some 14, true⟩] }

/-- `abcHeap` with a plain `new B()` appended at address 16. -/
def plainBInstHeap : Heap :=
  { abcHeap with objs := abcHeap.objs ++ [⟨[], some 6, true⟩] }

/-! Scenario for C4: `class A4 { constructor(a) { this.a = a } }` and
`class B4 { constructor(b) { Object.defineProperty(this, "b",
{ value: b, writable: true, enumerable: false, configurable: true }) } }`
— `b` is an own (non-inherited) but non-enumerable member of every `B4`
instance. -/

/-- `A4`: prototype 2, constructor 3; initializer stores the first
argument under the enumerable own field `a`. -/
def a4Step : Heap × Ctor :=
  mkClass baseHeap none [] []
    (fun a => match a with
     | InitArgs.flat args => some [(Key.str "a", ⟨args.getD 0 Value.undef, true, true, true⟩)]
     | InitArgs.groups _ => none)

/-- `B4`: prototype 4, constructor 5; initializer stores the first
argument under the non-enumerable own field `b`. -/
def b4Step : Heap × Ctor :=
  mkClass a4Step.1 none [] []
    (fun a => match a with
     | InitArgs.flat args => some [(Key.str "b", ⟨args.getD 0 Value.undef, true, false, true⟩)]
     | InitArgs.groups _ => none)

/-- The heap produced by `Mix(A4, B4)`. -/
def mix4Heap : Heap :=
  ⟨[⟨[], none, true⟩,
    ⟨[(Key.hasInstanceSym, ⟨Value.hi HIFun.native, false, false, false⟩)], some 0, true⟩,
    ⟨[(Key.str "constructor", ⟨Value.addr 3, true, false, true⟩)], some 0, true⟩,
    ⟨[(Key.str "prototype", ⟨Value.addr 2, false, false, false⟩), (Key.hasInstanceSym, ⟨Value.hi (HIFun.wrapper HIFun.native 6), true, false, true⟩)], some 1, true⟩,
    ⟨[(Key.str "constructor", ⟨Value.addr 5, true, false, true⟩)], some 0, true⟩,
    ⟨[(Key.str "prototype", ⟨Value.addr 4, false, false, false⟩), (Key.hasInstanceSym, ⟨Value.hi (HIFun.wrapper HIFun.native 7), true, false, true⟩)], some 1, true⟩,
    ⟨[(Key.str "constructor", ⟨Value.addr 3, true, false, true⟩)], some 7, true⟩,
    ⟨[(Key.str "constructor", ⟨Value.addr 5, true, false, true⟩)], some 4, true⟩,
    ⟨[(Key.str "constructor", ⟨Value.addr 9, true, false, true⟩)], some 6, true⟩,
    ⟨[(Key.str "prototype", ⟨Value.addr 8, false, false, false⟩), (Key.mixOfSym, ⟨Value.addrs [3, 5], true, true, true⟩)], some 3, true⟩],
   0, 1⟩

/-- `mix4Heap` with the composite instance built from argument groups
`(["x"], ["y"])` appended at address 10: only `A4`'s enumerable field `a`
made it onto the instance. -/
def mix4InstHeap : Heap :=
  { mix4Heap with objs := mix4Heap.objs ++ [⟨[(Key.str "a", ⟨Value.str "x", true, true, true⟩)], some 8, true⟩] }

/-! Scenario for C5: source `A5` carries the enumerable class-level datum
`value = "a"` (a static field); source `B5` carries the *non-enumerable*
own class-level datum `value = "b"` (installed with
`Object.defineProperty(B5, "value", { value: "b", writable: true,
enumerable: false, configurable: true })`). -/

/-- The pre-mix heap for C5: `A5.prototype` 2, `A5` 3 (enumerable static
`value = "a"`), `B5.prototype` 4, `B5` 5 (non-enumerable `value = "b"`). -/
def c5Heap : Heap :=
  ⟨[⟨[], none, true⟩,
    ⟨[(Key.hasInstanceSym, ⟨Value.hi HIFun.native, false, false, false⟩)], some 0, true⟩,
    ⟨[(Key.str "constructor", ⟨Value.addr 3, true, false, true⟩)], some 0, true⟩,
    ⟨[(Key.str "prototype", ⟨Value.addr 2, false, false, false⟩), (Key.str "value", ⟨Value.str "a", true, true, true⟩)], some 1, true⟩,
    ⟨[(Key.str "constructor", ⟨Value.addr 5, true, false, true⟩)], some 0, true⟩,
    ⟨[(Key.str "prototype", ⟨Value.addr 4, false, false, false⟩), (Key.str "value", ⟨Value.str "b", true, false, true⟩)], some 1, true⟩],
   0, 1⟩

def c5A : Ctor := ⟨3, fun _ => some []⟩

def c5B : Ctor := ⟨5, fun _ => some []⟩

/-- The heap produced by `Mix(A5, B5)` over `c5Heap`: the composite
constructor 9 received only `A5`'s enumerable `value = "a"`. -/
def mix5Heap : Heap :=
  ⟨[⟨[], none, true⟩,
    ⟨[(Key.hasInstanceSym, ⟨Value.hi HIFun.native, false, false, false⟩)], some 0, true⟩,
    ⟨[(Key.str "constructor", ⟨Value.addr 3, true, false, true⟩)], some 0, true⟩,
    ⟨[(Key.str "prototype", ⟨Value.addr 2, false, false, false⟩), (Key.str "value", ⟨Value.str "a", true, true, true⟩), (Key.hasInstanceSym, ⟨Value.hi (HIFun.wrapper HIFun.native 6), true, false, true⟩)], some 1, true⟩,
    ⟨[(Key.str "constructor", ⟨Value.addr 5, true, false, true⟩)], some 0, true⟩,
    ⟨[(Key.str "prototype", ⟨Value.addr 4, false, false, false⟩), (Key.str "value", ⟨Value.str "b", true, false, true⟩), (Key.hasInstanceSym, ⟨Value.hi (HIFun.wrapper HIFun.native 7), true, false, true⟩)], some 1, true⟩,
    ⟨[(Key.str "constructor", ⟨Value.addr 3, true, false, true⟩)], some 7, true⟩,
    ⟨[(Key.str "constructor", ⟨Value.addr 5, true, false, true⟩)], some 4, true⟩,
    ⟨[(Key.str "constructor", ⟨Value.addr 9, true, false, true⟩)], some 6, true⟩,
    ⟨[(Key.str "prototype", ⟨Value.addr 8, false, false, false⟩), (Key.mixOfSym, ⟨Value.addrs [3, 5], true, true, true⟩), (Key.str "value", ⟨Value.str "a", true, true, true⟩)], some 3, true⟩],
   0, 1⟩

/-- A variant of `c5Heap` where both `value` statics are ordinary
enumerable static fields (`A5e.value = "a"`, `B5e.value = "b"`). -/
def c5eHeap : Heap :=
  ⟨[⟨[], none, true⟩,
    ⟨[(Key.hasInstanceSym, ⟨Value.hi HIFun.native, false, false, false⟩)], some 0, true⟩,
    ⟨[(Key.str "constructor", ⟨Value.addr 3, true, false, true⟩)], some 0, true⟩,
    ⟨[(Key.str "prototype", ⟨Value.addr 2, false, false, false⟩), (Key.str "value", ⟨Value.str "a", true, true, true⟩)], some 1, true⟩,
    ⟨[(Key.str "constructor", ⟨Value.addr 5, true, false, true⟩)], some 0, true⟩,
    ⟨[(Key.str "prototype", ⟨Value.addr 4, false, false, false⟩), (Key.str "value", ⟨Value.str "b", true, true, true⟩)], some 1, true⟩],
   0, 1⟩

/-- The heap produced by `Mix(A5e, B5e)` over `c5eHeap`: the composite 9
carries `value = "b"` (the later source won). -/
def mix5abHeap : Heap :=
  ⟨[⟨[], none, true⟩,
    ⟨[(Key.hasInstanceSym, ⟨Value.hi HIFun.native, false, false, false⟩)], some 0, true⟩,
    ⟨[(Key.str "constructor", ⟨Value.addr 3, true, false, true⟩)], some 0, true⟩,
    ⟨[(Key.str "prototype", ⟨Value.addr 2, false, false, false⟩), (Key.str "value", ⟨Value.str "a", true, true, true⟩), (Key.hasInstanceSym, ⟨Value.hi (HIFun.wrapper HIFun.native 6), true, false, true⟩)], some 1, true⟩,
    ⟨[(Key.str "constructor", ⟨Value.addr 5, true, false, true⟩)], some 0, true⟩,
    ⟨[(Key.str "prototype", ⟨Value.addr 4, false, false, false⟩), (Key.str "value", ⟨Value.str "b", true, true, true⟩), (Key.hasInstanceSym, ⟨Value.hi (HIFun.wrapper HIFun.native 7), true, false, true⟩)], some 1, true⟩,
    ⟨[(Key.str "constructor", ⟨Value.addr 3, true, false, true⟩)], some 7, true⟩,
    ⟨[(Key.str "constructor", ⟨Value.addr 5, true, false, true⟩)], some 4, true⟩,
    ⟨[(Key.str "constructor", ⟨Value.addr 9, true, false, true⟩)], some 6, true⟩,
    ⟨[(Key.str "prototype", ⟨Value.addr 8, false, false, false⟩), (Key.mixOfSym, ⟨Value.addrs [3, 5], true, true, true⟩), (Key.str "value", ⟨Value.str "b", true, true, true⟩)], some 3, true⟩],
   0, 1⟩

/-- The heap produced by `Mix(B5e, A5e)` over `c5eHeap`: the composite 9
carries `value = "a"`. -/
def mix5baHeap : Heap :=
  ⟨[⟨[], none, true⟩,
    ⟨[(Key.hasInstanceSym, ⟨Value.hi HIFun.native, false, false, false⟩)], some 0, true⟩,
    ⟨[(Key.str "constructor", ⟨Value.addr 3, true, false, true⟩)], some 0, true⟩,
    ⟨[(Key.str "prototype", ⟨Value.addr 2, false, false, false⟩), (Key.str "value", ⟨Value.str "a", true, true, true⟩), (Key.hasInstanceSym, ⟨Value.hi (HIFun.wrapper HIFun.native 7), true, false, true⟩)], some 1, true⟩,
    ⟨[(Key.str "constructor", ⟨Value.addr 5, true, false, true⟩)], some 0, true⟩,
    ⟨[(Key.str "prototype", ⟨Value.addr 4, false, false, false⟩), (Key.str "value", ⟨Value.str "b", true, true, true⟩), (Key.hasInstanceSym, ⟨Value.hi (HIFun.wrapper HIFun.native 6), true, false, true⟩)], some 1, true⟩,
    ⟨[(Key.str "constructor", ⟨Value.addr 5, true, false, true⟩)], some 7, true⟩,
    ⟨[(Key.str "constructor", ⟨Value.addr 3, true, false, true⟩)], some 2, true⟩,
    ⟨[(Key.str "constructor", ⟨Value.addr 9, true, false, true⟩)], some 6, true⟩,
    ⟨[(Key.str "prototype", ⟨Value.addr 8, false, false, false⟩), (Key.mixOfSym, ⟨Value.addrs [5, 3], true, true, true⟩), (Key.str "value", ⟨Value.str "a", true, true, true⟩)], some 5, true⟩],
   0, 1⟩

/-- A one-object heap whose only object is an empty, *non-extensible*
container (`const c = Object.freeze({})`). -/
def frozenHeap : Heap := ⟨[⟨[], none, false⟩], 0, 0⟩

/-- The pre-mix heap of the C4 scenario (`= b4Step.1`), written out. -/
def c4Base : Heap :=
  ⟨[⟨[], none, true⟩,
    ⟨[(Key.hasInstanceSym, ⟨Value.hi HIFun.native, false, false, false⟩)], some 0, true⟩,
    ⟨[(Key.str "constructor", ⟨Value.addr 3, true, false, true⟩)], some 0, true⟩,
    ⟨[(Key.str "prototype", ⟨Value.addr 2, false, false, false⟩)], some 1, true⟩,
    ⟨[(Key.str "constructor", ⟨Value.addr 5, true, false, true⟩)], some 0, true⟩,
    ⟨[(Key.str "prototype", ⟨Value.addr 4, false, false, false⟩)], some 1, true⟩],
   0, 1⟩

/-- For the C4 amended-claim witness: `class AE { constructor(a) {
this.a = a } }` at the same addresses as `A4` (initializer fields are
ordinary enumerable properties). -/
def aE : Ctor :=
  ⟨3, fun a => match a with
   | InitArgs.flat args => some [(Key.str "a", ⟨args.getD 0 Value.undef, true, true, true⟩)]
   | InitArgs.groups _ => none⟩

/-- For the C4 amended-claim witness: `class BE { constructor(b) {
this.b = b } }` at the same addresses as `B4`. -/
def bE : Ctor :=
  ⟨5, fun a => match a with
   | InitArgs.flat args => some [(Key.str "b", ⟨args.getD 0 Value.undef, true, true, true⟩)]
   | InitArgs.groups _ => none⟩

/-! ## Theorems -/

/-! ### Association-list and lookup lemmas -/

theorem getOwnD_setProps (ps : List (Key × PropDesc)) (k : Key) (d : PropDesc) (k' : Key) :
    getOwnD (setProps ps k d) k' = if k = k' then some d else getOwnD ps k' := by
  induction ps with
  | nil => simp [setProps, getOwnD]
  | cons p rest ih =>
    by_cases hpk : p.1 = k
    · subst hpk
      by_cases hk : p.1 = k' <;> simp [setProps, getOwnD, hk]
    · by_cases hk : p.1 = k'
      · have hkk : ¬ k = k' := fun h => hpk (h ▸ hk)
        have hkk' : ¬ k' = k := fun h => hkk h.symm
        simp [setProps, hpk, getOwnD, hk, hkk, hkk']
      · simp [setProps, hpk, getOwnD, hk, ih]

theorem getOwnD_append (l1 l2 : List (Key × PropDesc)) (k : Key) :
    getOwnD (l1 ++ l2) k = (getOwnD l1 k).or (getOwnD l2 k) := by
  induction l1 with
  | nil => simp [getOwnD]
  | cons p rest ih =>
    by_cases hk : p.1 = k <;> simp [getOwnD, hk, ih]

theorem heapGet_lt (h : Heap) (a : Nat) (o : Obj) (ha : heapGet h a = some o) :
    a < h.objs.length := by
  by_contra hc
  rw [heapGet, List.getElem?_eq_none (by omega)] at ha
  cases ha

theorem heapGet_set_self (h : Heap) (a : Nat) (o' : Obj) (hlt : a < h.objs.length) :
    heapGet (heapSet h a o') a = some o' := by
  simp [heapGet, heapSet, List.getElem?_set_self', List.getElem?_eq_getElem hlt]

theorem heapGet_set_ne (h : Heap) (a b : Nat) (o' : Obj) (hne : a ≠ b) :
    heapGet (heapSet h a o') b = heapGet h b := by
  simp [heapGet, heapSet, List.getElem?_set_ne hne]

theorem getProp_of_own (h : Heap) (a : Nat) (o : Obj) (k : Key) (d : PropDesc)
    (ha : heapGet h a = some o) (hd : getOwnDesc o k = some d) :
    getProp h a k = some d := by
  have hlt := heapGet_lt h a o ha
  obtain ⟨n, hn⟩ : ∃ n, h.objs.length = n + 1 := ⟨h.objs.length - 1, by omega⟩
  rw [getProp, hn]
  simp [getPropAux, ha, hd]

theorem getOwnDesc_none_of_getProp_none (h : Heap) (a : Nat) (o : Obj) (k : Key)
    (ha : heapGet h a = some o) (hnone : getPropValue h a k = none) :
    getOwnDesc o k = none := by
  cases hd : getOwnDesc o k with
  | none => rfl
  | some d =>
    rw [getPropValue, getProp_of_own h a o k d ha hd] at hnone
    cases hnone

/-- Composing the documented step results of `Mix` into the full
equation: used to evaluate `Mix` on concrete scenarios one step at a time
(each step going from an explicit heap to an explicit heap). -/
theorem Mix_eq_of_steps (h : Heap) (c0 c1 : Ctor) (rest : List Ctor) (lastC : Ctor)
    (pc0 : Nat) (h1 : Heap) (proto0 last0 : Nat) (h2 : Heap) (lastP lcp : Nat)
    (h3 h5 h6 : Heap)
    (hlast : (c0 :: c1 :: rest).getLast? = some lastC)
    (hpc0 : protoAddrVal h c0.addr = some pc0)
    (hdeep : clonePrototypeDeep h pc0 = some (h1, proto0, last0))
    (hloop : mixChainLoop h1 last0 (c1 :: rest) = some (h2, lastP))
    (hlcp : protoAddrVal h2 lastC.addr = some lcp)
    (hset : setProtoOf h2 lastP lcp = some h3)
    (hset2 : setProtoOf (allocCreate h3 pc0 (c0 :: c1 :: rest) c0) h3.objs.length proto0 = some h5)
    (hstat : staticsLoop h5 (h3.objs.length + 1) (c0 :: c1 :: rest) = some h6) :
    Mix h (c0 :: c1 :: rest) = some (h6, ⟨h3.objs.length + 1, dispatchProps (c0 :: c1 :: rest)⟩) := by
  simp only [Mix, hlast, hpc0, hdeep, hloop, hlcp, hset, hset2, hstat]

/-- One iteration of the `Mix` chain loop, composed from its documented
step results (same purpose as `Mix_eq_of_steps`). -/
theorem mixChainLoop_cons (h : Heap) (lastP : Nat) (c : Ctor) (rest : List Ctor)
    (pc : Nat) (h1 : Heap) (head lastC : Nat) (h2 : Heap) (newLast : Nat) (res : Heap × Nat)
    (hpc : protoAddrVal h c.addr = some pc)
    (hdeep : clonePrototypeDeep h pc = some (h1, head, lastC))
    (hset : setProtoOf h1 lastP head = some h2)
    (hnew : (heapGet h2 lastP).bind Obj.proto = some newLast)
    (hrest : mixChainLoop h2 newLast rest = some res) :
    mixChainLoop h lastP (c :: rest) = some res := by
  simp only [mixChainLoop, hpc, hdeep, hset, hnew, hrest]

/-! ### C6 — single-source composition is the identity -/

/-- C6: composing a list containing exactly one source returns that source
type itself — the very same constructor, with the heap untouched. -/
theorem mix_singleton_identity (h : Heap) (c : Ctor) : Mix h [c] = some (h, c) := rfl

/-! ### C9 — reuse is write-once, read-many -/

/-- C9: on a container without a stored slot, `reuse(container, valueA)`
stores and returns `valueA`, and every subsequent `reuse(container,
valueB)` returns the originally stored `valueA` (for arbitrary `valueB`),
leaving the heap unchanged. -/
theorem reuse_write_once (h : Heap) (container : Nat) (o : Obj) (vA vB : Value)
    (hc : heapGet h container = some o) (hext : o.extensible = true)
    (hnone : getPropValue h container Key.reuseSym = none) :
    ∃ h1, reuse h container vA = Except.ok (vA, h1) ∧
      reuse h1 container vB = Except.ok (vA, h1) := by
  have hown : getOwnDesc o Key.reuseSym = none :=
    getOwnDesc_none_of_getProp_none h container o Key.reuseSym hc hnone
  refine ⟨heapSet h container { o with props := o.props ++ [(Key.reuseSym, ⟨vA, false, false, false⟩)] }, ?_, ?_⟩
  · rw [reuse, hnone]
    simp [defineOwn, hc, hown, hext]
  · have hlt := heapGet_lt h container o hc
    have hget1 : heapGet (heapSet h container { o with props := o.props ++ [(Key.reuseSym, ⟨vA, false, false, false⟩)] }) container
        = some { o with props := o.props ++ [(Key.reuseSym, ⟨vA, false, false, false⟩)] } :=
      heapGet_set_self h container _ hlt
    have hown1 : getOwnDesc { o with props := o.props ++ [(Key.reuseSym, ⟨vA, false, false, false⟩)] } Key.reuseSym
        = some ⟨vA, false, false, false⟩ := by
      rw [getOwnDesc] at hown ⊢
      simp only [getOwnD_append, hown]
      simp [getOwnD]
    have := getProp_of_own _ container _ Key.reuseSym _ hget1 hown1
    rw [reuse, getPropValue, this]
    rfl

/-- Witness for C9 at a concrete input: the empty extensible container at
address 0 of the base realm, with distinct values "a" and "b". -/
theorem reuse_write_once_witness :
    (Value.str "a" ≠ Value.str "b") ∧
      ∃ h1, reuse baseHeap 0 (Value.str "a") = Except.ok (Value.str "a", h1) ∧
        reuse h1 0 (Value.str "b") = Except.ok (Value.str "a", h1) :=
  ⟨by simp, reuse_write_once baseHeap 0 ⟨[], none, true⟩ (Value.str "a") (Value.str "b") rfl rfl rfl⟩

/-! ### C10 — reuse error conditions -/

/-- C10 counterexample: on a container the caller has frozen
(non-extensible, no slot), `reuse` does *not* complete normally: the
`Object.defineProperty` call signals an error.  This refutes the claim
that `reuse` has no error conditions "including on containers the caller
has made non-extensible, frozen, or otherwise restricted". -/
theorem reuse_frozen_error :
    reuse frozenHeap 0 (Value.str "v") = Except.error () := rfl

/-- C10 amended: `reuse` completes normally and returns a value on every
container that is extensible or already holds the hidden slot (anywhere on
its member-lookup chain); only a non-extensible container without the slot
makes the property-definition step signal an error. -/
theorem reuse_ok_when_extensible_or_stored (h : Heap) (container : Nat) (o : Obj) (v : Value)
    (hc : heapGet h container = some o)
    (hcase : o.extensible = true ∨ (getPropValue h container Key.reuseSym).isSome = true) :
    ∃ r, reuse h container v = Except.ok r := by
  cases hv : getPropValue h container Key.reuseSym with
  | some w => exact ⟨(w, h), by rw [reuse, hv]⟩
  | none =>
    rcases hcase with hext | hsome
    · have hown : getOwnDesc o Key.reuseSym = none :=
        getOwnDesc_none_of_getProp_none h container o Key.reuseSym hc hv
      refine ⟨(v, heapSet h container { o with props := o.props ++ [(Key.reuseSym, ⟨v, false, false, false⟩)] }), ?_⟩
      rw [reuse, hv]
      simp [defineOwn, hc, hown, hext]
    · rw [hv] at hsome
      cases hsome

/-- Witness for C10's amended claim at a concrete input: the extensible
container at address 0 of the base realm. -/
theorem reuse_ok_witness :
    ∃ r, reuse baseHeap 0 (Value.str "v") = Except.ok r :=
  reuse_ok_when_extensible_or_stored baseHeap 0 ⟨[], none, true⟩ (Value.str "v") rfl (Or.inl rfl)

/-! ### C2 — the augmentation breaks the native check for plain instances -/

/-- C2 (bug witness): evaluating the code at the failing input.  Before
`Mix(Foo, Bar)`, a plain `new Foo()` satisfies `instanceof Foo` (the
native clause).  After `Mix(Foo, Bar)` has augmented `Foo`'s
`Symbol.hasInstance`, the wrapper calls the saved built-in predicate
detached (`originalInstanceOf?.(instance)`, `this = undefined`), which
returns false, and the duplicate member-table is not on a plain instance's
chain either — so `new Foo() instanceof Foo` is now `false`, contradicting
the claim that clause (a), the default/native behavior, is preserved. -/
theorem native_check_broken_after_mix :
    (newInstance barStep.1 fooStep.2 (InitArgs.flat []) = some (preMixFooInstHeap, 6) ∧
      instanceOf preMixFooInstHeap 6 3 = true) ∧
    Mix barStep.1 [fooStep.2, barStep.2] =
      some (fooBarHeap, ⟨9, dispatchProps [fooStep.2, barStep.2]⟩) ∧
    newInstance fooBarHeap fooStep.2 (InitArgs.flat []) = some (plainFooHeap, 10) ∧
    instanceOf plainFooHeap 10 3 = false :=
  ⟨⟨by decide, by decide⟩, rfl, by decide, by decide⟩

/-! ### C3 — middle sources' cloned ancestry is dropped from the chain -/

/-- C3 (bug witness): evaluating the code at the failing input
`Mix(A, B, C)` where the middle source `B` extends `P` and `P.prototype`
carries the member `m`.  `m` is an own member of `P.prototype` (an
ancestor member-table of source `B`), and the deep duplicate of that
ancestry is produced (object 12 in `abcHeap`), but the loop links only the
head duplicate (object 11) into the chain, so member lookup for `m` on a
composite instance fails, while a plain `new B()` still finds it. -/
theorem middle_source_ancestry_dropped :
    Mix cStep.1 [aStep.2, bStep.2, cStep.2] =
      some (abcHeap, ⟨15, dispatchProps [aStep.2, bStep.2, cStep.2]⟩) ∧
    getOwnDesc ⟨[(Key.str "constructor", ⟨Value.addr 5, true, false, true⟩), (Key.str "m", ⟨Value.str "mval", true, false, true⟩)], some 0, true⟩ (Key.str "m")
      = some ⟨Value.str "mval", true, false, true⟩ ∧
    newInstance abcHeap ⟨15, dispatchProps [aStep.2, bStep.2, cStep.2]⟩
      (InitArgs.groups [[], [], []]) = some (abcInstHeap, 16) ∧
    getPropValue abcInstHeap 16 (Key.str "m") = none ∧
    newInstance abcHeap bStep.2 (InitArgs.flat []) = some (plainBInstHeap, 16) ∧
    getPropValue plainBInstHeap 16 (Key.str "m") = some (Value.str "mval") := by
  refine ⟨?_, rfl, rfl, rfl, rfl, rfl⟩
  rw [show cStep.1 = abcBase from rfl]
  refine Mix_eq_of_steps abcBase aStep.2 bStep.2 [cStep.2] cStep.2 2 abcH1 10 10 abcH2 13 8
    abcH3 abcHeap abcHeap rfl rfl rfl ?_ rfl rfl rfl rfl
  refine mixChainLoop_cons abcH1 10 bStep.2 [cStep.2] 6 abcHB1 11 12 abcHB2 11 (abcH2, 13)
    rfl rfl rfl rfl ?_
  exact mixChainLoop_cons abcHB2 11 cStep.2 [] 8 abcHC1 13 13 abcH2 13 (abcH2, 13)
    rfl rfl rfl rfl rfl


/-! ### C4 — constructor dispatch -/

/-- `lastEnumVal` as the result of folding from an arbitrary accumulator:
the fold keeps the accumulator unless a later enumerable entry under `k`
overrides it. -/
theorem foldl_enum_init (ps : List (Key × PropDesc)) (k : Key) (a : Option Value) :
    ps.foldl (fun acc p => if p.1 = k ∧ p.2.enumerable = true then some p.2.value else acc) a
      = match lastEnumVal ps k with
        | some v => some v
        | none => a := by
  induction ps generalizing a with
  | nil => simp [lastEnumVal]
  | cons p ps ih =>
    rw [List.foldl_cons, ih]
    have hre : lastEnumVal (p :: ps) k = match lastEnumVal ps k with
        | some v => some v
        | none => if p.1 = k ∧ p.2.enumerable = true then some p.2.value else none := by
      rw [lastEnumVal, List.foldl_cons, ih]
    rw [hre]
    cases hl : lastEnumVal ps k with
    | some v => simp
    | none =>
      by_cases hc : p.1 = k ∧ p.2.enumerable = true
      · simp [hc]
      · simp [hc]

/-- Unfolding `lastEnumVal` one entry at a time (later entries win). -/
theorem lastEnumVal_cons (p : Key × PropDesc) (ps : List (Key × PropDesc)) (k : Key) :
    lastEnumVal (p :: ps) k = match lastEnumVal ps k with
      | some v => some v
      | none => if p.1 = k ∧ p.2.enumerable = true then some p.2.value else none := by
  rw [lastEnumVal, List.foldl_cons, foldl_enum_init]

/-- A single `Object.assign` property write, pointwise: the written key
gets the new value, every other key is untouched. -/
theorem assignProp_lookupValue (tgt : List (Key × PropDesc)) (k' : Key) (v : Value)
    (t1 : List (Key × PropDesc)) (hset : assignProp tgt k' v = some t1) (k : Key) :
    lookupValue t1 k = if k = k' then some v else lookupValue tgt k := by
  rw [assignProp.eq_def] at hset
  cases hf : getOwnD tgt k' with
  | some d =>
    simp only [hf] at hset
    by_cases hw : d.writable = true
    · rw [if_pos hw] at hset
      cases hset
      rw [lookupValue, getOwnD_setProps]
      by_cases hk : k = k'
      · subst hk; simp
      · have hk' : ¬ k' = k := fun h => hk h.symm
        simp [lookupValue, hk', hk]
    · rw [if_neg hw] at hset; cases hset
  | none =>
    simp only [hf] at hset
    cases hset
    rw [lookupValue, getOwnD_append]
    by_cases hk : k = k'
    · subst hk
      simp [hf, getOwnD]
    · have hk' : ¬ k' = k := fun h => hk h.symm
      simp [getOwnD, hk', hk, lookupValue]

/-- `Object.assign(target, source)`, pointwise: the value under `k`
afterwards is the last own enumerable `k`-entry of the source if any,
otherwise the target's previous value. -/
theorem assignAll_lookupValue (src : List (Key × PropDesc)) (tgt tgt' : List (Key × PropDesc))
    (h : assignAll tgt src = some tgt') (k : Key) :
    lookupValue tgt' k = match lastEnumVal src k with
      | some v => some v
      | none => lookupValue tgt k := by
  induction src generalizing tgt with
  | nil => rw [assignAll] at h; cases h; simp [lastEnumVal]
  | cons p ps ih =>
    obtain ⟨pk, pd⟩ := p
    rw [assignAll] at h
    by_cases he : pd.enumerable = true
    · rw [if_pos he] at h
      cases ha : assignProp tgt pk pd.value with
      | none => simp only [ha] at h; cases h
      | some t1 =>
        simp only [ha] at h
        rw [ih t1 h, lastEnumVal_cons]
        have hap := assignProp_lookupValue tgt pk pd.value t1 ha k
        cases hl : lastEnumVal ps k with
        | some v => simp
        | none =>
          by_cases hk : k = pk
          · subst hk; simp [he, hap]
          · have : ¬ (pk = k ∧ pd.enumerable = true) := fun hc => hk hc.1.symm
            simp [this, hap, hk]
    · rw [if_neg he] at h
      rw [ih tgt h, lastEnumVal_cons]
      have : ¬ (pk = k ∧ pd.enumerable = true) := fun hc => he hc.2
      cases hl : lastEnumVal ps k <;> simp [this]

/-- The dispatch loop of the synthesized constructor, pointwise: the value
under `k` is the last later-source throwaway's enumerable own `k` if any,
otherwise whatever the accumulated object already had. -/
theorem dispatchAux_lookupValue (cs : List Ctor) (gs : List (List Value)) (i : Nat)
    (acc P : List (Key × PropDesc)) (h : dispatchAux gs cs i acc = some P) (k : Key) :
    lookupValue P k = match throwawayEnumVal gs cs i k with
      | some v => some v
      | none => lookupValue acc k := by
  induction cs generalizing i acc with
  | nil =>
    rw [dispatchAux] at h; cases h; simp [throwawayEnumVal]
  | cons c cs ih =>
    rw [dispatchAux] at h
    cases hg : gs[i]? with
    | none => simp only [hg] at h; cases h
    | some g =>
      simp only [hg] at h
      cases hi : c.init (InitArgs.flat g) with
      | none => simp only [hi] at h; cases h
      | some ps =>
        simp only [hi] at h
        cases ha : assignAll acc ps with
        | none => simp only [ha] at h; cases h
        | some acc' =>
          simp only [ha] at h
          rw [ih (i + 1) acc' h]
          have hun : throwawayEnumVal gs (c :: cs) i k =
              match throwawayEnumVal gs cs (i + 1) k with
              | some v => some v
              | none =>
                match lastEnumVal ps k with
                | some v => some v
                | none => none := by
            simp only [throwawayEnumVal, hg, hi]
            cases throwawayEnumVal gs cs (i + 1) k <;> cases lastEnumVal ps k <;> rfl
          rw [hun]
          cases ht : throwawayEnumVal gs cs (i + 1) k with
          | some v => rfl
          | none =>
            rw [assignAll_lookupValue ps acc acc' ha k]
            cases lastEnumVal ps k <;> rfl

/-- Inverting a successful `Mix` with at least two sources: the returned
constructor's body is the dispatching composite constructor, and its
function object is the second of the two freshly allocated objects. -/
theorem mix_create_init (h : Heap) (c0 c1 : Ctor) (rest : List Ctor)
    (h' : Heap) (create : Ctor) (hMix : Mix h (c0 :: c1 :: rest) = some (h', create)) :
    create.init = dispatchProps (c0 :: c1 :: rest) := by
  rw [Mix] at hMix
  repeat' split at hMix
  all_goals first
    | (cases hMix; rfl)
    | cases hMix

/-- C4 counterexample: the dispatch copy uses `Object.assign`, which skips
non-enumerable own members of the throwaway instance.  `B4`'s initializer
defines the own (non-inherited) member `b` with `enumerable: false`; after
`new (Mix(A4, B4))(["x"], ["y"])` the throwaway owns `b` but the composite
instance does not — refuting "copies every own (non-inherited) member". -/
theorem dispatch_skips_nonenumerable_own :
    Mix b4Step.1 [a4Step.2, b4Step.2] =
      some (mix4Heap, ⟨9, dispatchProps [a4Step.2, b4Step.2]⟩) ∧
    b4Step.2.init (InitArgs.flat [Value.str "y"]) =
      some [(Key.str "b", ⟨Value.str "y", true, false, true⟩)] ∧
    newInstance mix4Heap ⟨9, dispatchProps [a4Step.2, b4Step.2]⟩
      (InitArgs.groups [[Value.str "x"], [Value.str "y"]]) = some (mix4InstHeap, 10) ∧
    (heapGet mix4InstHeap 10).map (fun o => getOwnDesc o (Key.str "b")) = some none ∧
    (heapGet mix4InstHeap 10).map (fun o => getOwnDesc o (Key.str "a")) =
      some (some ⟨Value.str "x", true, true, true⟩) :=
  ⟨rfl, rfl, rfl, rfl, rfl⟩

/-- C4 amended: the synthesized composite constructor invokes `sources[0]`
with the first argument-group and, for every remaining source in order,
builds that source's throwaway instance from its own argument-group and
copies every own *enumerable* member onto the object under construction
(later sources win); pointwise, the constructed object's member under `k`
is the last later-source throwaway's enumerable own `k`, else the base
instance's own `k`. -/
theorem mix_dispatch_pointwise (h : Heap) (c0 c1 : Ctor) (rest : List Ctor)
    (h' : Heap) (create : Ctor)
    (hMix : Mix h (c0 :: c1 :: rest) = some (h', create))
    (gs : List (List Value)) (g0 : List Value) (base P : List (Key × PropDesc))
    (hg0 : gs[0]? = some g0)
    (hbase : c0.init (InitArgs.flat g0) = some base)
    (hP : create.init (InitArgs.groups gs) = some P) (k : Key) :
    lookupValue P k =
      match throwawayEnumVal gs (c1 :: rest) 1 k with
      | some v => some v
      | none => lookupValue base k := by
  rw [mix_create_init h c0 c1 rest h' create hMix] at hP
  rw [dispatchProps.eq_def] at hP
  simp only [hg0, hbase] at hP
  exact dispatchAux_lookupValue (c1 :: rest) gs 1 base P hP k

/-- Witness for C4's amended claim: composing `[AE, BE]` (both fields
enumerable) and constructing with argument-groups `(["x"], ["y"])` yields
an object whose `a` is `"x"` and whose `b` is `"y"`. -/
theorem mix_dispatch_pointwise_witness :
    lookupValue [(Key.str "a", ⟨Value.str "x", true, true, true⟩), (Key.str "b", ⟨Value.str "y", true, true, true⟩)] (Key.str "a")
      = some (Value.str "x") ∧
    lookupValue [(Key.str "a", ⟨Value.str "x", true, true, true⟩), (Key.str "b", ⟨Value.str "y", true, true, true⟩)] (Key.str "b")
      = some (Value.str "y") :=
  ⟨mix_dispatch_pointwise c4Base aE bE [] mix4Heap ⟨9, dispatchProps [aE, bE]⟩ rfl
      [[Value.str "x"], [Value.str "y"]] [Value.str "x"]
      [(Key.str "a", ⟨Value.str "x", true, true, true⟩)]
      [(Key.str "a", ⟨Value.str "x", true, true, true⟩), (Key.str "b", ⟨Value.str "y", true, true, true⟩)]
      rfl rfl rfl (Key.str "a"),
   mix_dispatch_pointwise c4Base aE bE [] mix4Heap ⟨9, dispatchProps [aE, bE]⟩ rfl
      [[Value.str "x"], [Value.str "y"]] [Value.str "x"]
      [(Key.str "a", ⟨Value.str "x", true, true, true⟩)]
      [(Key.str "a", ⟨Value.str "x", true, true, true⟩), (Key.str "b", ⟨Value.str "y", true, true, true⟩)]
      rfl rfl rfl (Key.str "b")⟩


/-! ### C5 — static (class-level) data propagation -/

/-- C5 counterexample: `A5` carries the enumerable class-level datum
`value = "a"`; `B5` carries the own, *non-enumerable* class-level datum
`value = "b"`.  After `Mix(A5, B5)` the composite's `value` is `"a"`:
`B5`'s own class-level data is not present on the composite and the later
source did not win, because the statics pass is `Object.assign`, which
copies only enumerable own properties. -/
theorem statics_skip_nonenumerable :
    Mix c5Heap [c5A, c5B] = some (mix5Heap, ⟨9, dispatchProps [c5A, c5B]⟩) ∧
    (heapGet c5Heap 5).map (fun o => getOwnDesc o (Key.str "value")) =
      some (some ⟨Value.str "b", true, false, true⟩) ∧
    getPropValue mix5Heap 9 (Key.str "value") = some (Value.str "a") :=
  ⟨rfl, rfl, by decide⟩


/-! ### Heap-operation frame lemmas -/

theorem heapGet_append_lt (h : Heap) (os : List Obj) (a : Nat) (ha : a < h.objs.length) :
    heapGet { h with objs := h.objs ++ os } a = heapGet h a := by
  simp [heapGet, List.getElem?_append, ha]

theorem heapGet_append_self (h : Heap) (o : Obj) :
    heapGet { h with objs := h.objs ++ [o] } h.objs.length = some o := by
  simp [heapGet, List.getElem?_append_right (Nat.le_refl _)]

theorem lastEnumVal_append (l1 l2 : List (Key × PropDesc)) (k : Key) :
    lastEnumVal (l1 ++ l2) k = match lastEnumVal l2 k with
      | some v => some v
      | none => lastEnumVal l1 k := by
  rw [lastEnumVal, List.foldl_append, foldl_enum_init]
  rfl

theorem lastEnumVal_setProps_ne (ps : List (Key × PropDesc)) (k : Key) (d : PropDesc)
    (k' : Key) (hk : k' ≠ k) :
    lastEnumVal (setProps ps k d) k' = lastEnumVal ps k' := by
  induction ps with
  | nil =>
    simp only [setProps, lastEnumVal_cons]
    have : ¬ (k = k' ∧ d.enumerable = true) := fun hc => hk hc.1.symm
    simp [lastEnumVal, this]
  | cons p rest ih =>
    by_cases hpk : p.1 = k
    · simp only [setProps, if_pos hpk, lastEnumVal_cons, ih]
      have h1 : ¬ (k = k' ∧ d.enumerable = true) := fun hc => hk hc.1.symm
      have h2 : ¬ (p.1 = k' ∧ p.2.enumerable = true) := fun hc => hk (hpk ▸ hc.1).symm
      cases lastEnumVal rest k' <;> simp [h1, h2]
    · simp only [setProps, if_neg hpk, lastEnumVal_cons, ih]

theorem getOwnD_some_lt_heap (h : Heap) (a : Nat) (o : Obj) (ha : heapGet h a = some o) :
    1 ≤ h.objs.length := by
  have := heapGet_lt h a o ha
  omega

/-- `Object.defineProperty` decomposed: the written object keeps
everything except the written key. -/
theorem defineOwn_spec (h : Heap) (a : Nat) (k : Key) (d : PropDesc) (h' : Heap)
    (hdef : defineOwn h a k d = some h') :
    h'.objs.length = h.objs.length ∧
    h'.objectProto = h.objectProto ∧ h'.functionProto = h.functionProto ∧
    (∀ b, b ≠ a → heapGet h' b = heapGet h b) ∧
    ∃ o o', heapGet h a = some o ∧ heapGet h' a = some o' ∧
      o'.proto = o.proto ∧ o'.extensible = o.extensible ∧
      (∀ k', k' ≠ k → getOwnD o'.props k' = getOwnD o.props k') ∧
      (∀ k', k' ≠ k → lastEnumVal o'.props k' = lastEnumVal o.props k') ∧
      getOwnD o'.props k = some d := by
  rw [defineOwn.eq_def] at hdef
  cases ho : heapGet h a with
  | none => simp only [ho] at hdef; cases hdef
  | some o =>
    simp only [ho] at hdef
    have hlt := heapGet_lt h a o ho
    cases hget : getOwnD o.props k with
    | some old =>
      simp only [getOwnDesc, hget] at hdef
      by_cases hc : old.configurable = true
      · rw [if_pos hc] at hdef
        cases hdef
        refine ⟨by simp [heapSet], rfl, rfl,
          fun b hb => heapGet_set_ne h a b _ (fun hba => hb hba.symm), o,
          { o with props := setProps o.props k d }, rfl, heapGet_set_self h a _ hlt, rfl, rfl, ?_, ?_, ?_⟩
        · intro k' hk'
          rw [getOwnD_setProps]
          have hkk : ¬ k = k' := fun he => hk' he.symm
          simp [hkk]
        · intro k' hk'
          exact lastEnumVal_setProps_ne o.props k d k' hk'
        · rw [getOwnD_setProps]; simp
      · rw [if_neg hc] at hdef; cases hdef
    | none =>
      simp only [getOwnDesc, hget] at hdef
      by_cases he : o.extensible = true
      · rw [if_pos he] at hdef
        cases hdef
        refine ⟨by simp [heapSet], rfl, rfl,
          fun b hb => heapGet_set_ne h a b _ (fun hba => hb hba.symm), o,
          { o with props := o.props ++ [(k, d)] }, rfl, heapGet_set_self h a _ hlt, rfl, rfl, ?_, ?_, ?_⟩
        · intro k' hk'
          rw [getOwnD_append]
          have hkk : ¬ k = k' := fun he => hk' he.symm
          simp [getOwnD, hkk]
        · intro k' hk'
          rw [lastEnumVal_append]
          have : ¬ (k = k' ∧ d.enumerable = true) := fun hc => hk' hc.1.symm
          simp [lastEnumVal, this]
        · rw [getOwnD_append, hget]
          simp [getOwnD]
      · rw [if_neg he] at hdef; cases hdef

/-- `Object.setPrototypeOf` decomposed: only the target's prototype link
changes. -/
theorem setProtoOf_spec (h : Heap) (a p : Nat) (h' : Heap)
    (hset : setProtoOf h a p = some h') :
    h'.objs.length = h.objs.length ∧
    h'.objectProto = h.objectProto ∧ h'.functionProto = h.functionProto ∧
    (∀ b, b ≠ a → heapGet h' b = heapGet h b) ∧
    ∃ o o', heapGet h a = some o ∧ heapGet h' a = some o' ∧
      o'.props = o.props ∧ o'.extensible = o.extensible ∧ o'.proto = some p := by
  rw [setProtoOf.eq_def] at hset
  cases ho : heapGet h a with
  | none => simp only [ho] at hset; cases hset
  | some o =>
    simp only [ho] at hset
    have hlt := heapGet_lt h a o ho
    by_cases hp : o.proto = some p
    · rw [if_pos hp] at hset
      cases hset
      exact ⟨rfl, rfl, rfl, fun b hb => rfl, o, o, rfl, ho, rfl, rfl, hp⟩
    · rw [if_neg hp] at hset
      by_cases he : o.extensible = true
      · rw [if_pos he] at hset
        cases hset
        exact ⟨by simp [heapSet], rfl, rfl,
          fun b hb => heapGet_set_ne h a b _ (fun hba => hb hba.symm),
          o, { o with proto := some p }, rfl, heapGet_set_self h a _ hlt, rfl, rfl, rfl⟩
      · rw [if_neg he] at hset; cases hset


/-! ### The frame relation -/

theorem framedExt_refl (h : Heap) : FramedExt h h :=
  ⟨Nat.le_refl _, rfl, rfl, fun _ o ha =>
    ⟨o, ha, rfl, rfl, fun _ _ => rfl, fun _ _ => rfl, Or.inl rfl⟩⟩

theorem wfClosed_proto (h : Heap) (W : wfClosed h = true) (a : Nat) (o : Obj)
    (ha : heapGet h a = some o) (b : Nat) (hb : o.proto = some b) : b < h.objs.length := by
  rw [wfClosed, List.all_eq_true] at W
  have hmem : o ∈ h.objs := by
    have hlt := heapGet_lt h a o ha
    rw [heapGet, List.getElem?_eq_getElem hlt] at ha
    cases ha
    exact h.objs.getElem_mem hlt
  have := W o hmem
  rw [hb] at this
  simpa using this

theorem heapGet_isSome_of_lt (h : Heap) (a : Nat) (ha : a < h.objs.length) :
    ∃ o, heapGet h a = some o := by
  rw [heapGet, List.getElem?_eq_getElem ha]
  exact ⟨_, rfl⟩

/-- Any heap transformation that does not disturb pre-existing objects
preserves the frame relation. -/
theorem framedExt_congr (h0 ht ht' : Heap) (I : FramedExt h0 ht)
    (hlen : ht.objs.length ≤ ht'.objs.length)
    (hop : ht'.objectProto = ht.objectProto) (hfp : ht'.functionProto = ht.functionProto)
    (heq : ∀ a, a < h0.objs.length → heapGet ht' a = heapGet ht a) :
    FramedExt h0 ht' := by
  refine ⟨Nat.le_trans I.size_le hlen, hop.trans I.objectProto_eq,
    hfp.trans I.functionProto_eq, fun a o ha => ?_⟩
  obtain ⟨o', ho', rest⟩ := I.old a o ha
  exact ⟨o', (heq a (heapGet_lt h0 a o ha)).trans ho', rest⟩

/-- Allocation preserves the frame relation. -/
theorem framedExt_alloc (h0 ht : Heap) (os : List Obj) (I : FramedExt h0 ht) :
    FramedExt h0 { ht with objs := ht.objs ++ os } := by
  refine framedExt_congr h0 ht _ I (by simp) rfl rfl (fun a ha => ?_)
  exact heapGet_append_lt ht os a (Nat.lt_of_lt_of_le ha I.size_le)

/-- Redefining `Symbol.hasInstance` to an additive wrapper preserves the
frame relation (writes to fresh objects do so trivially). -/
theorem framedExt_defineHI (h0 ht ht' : Heap) (c : Nat) (w : HIFun)
    (I : FramedExt h0 ht)
    (hdef : defineOwn ht c Key.hasInstanceSym ⟨Value.hi w, true, false, true⟩ = some ht')
    (hw : AdditiveWrap h0 w) : FramedExt h0 ht' := by
  obtain ⟨hlen, hop, hfp, hother, o, o', hgo, hgo', hproto, hext, hkeep, hlast, hHI⟩ :=
    defineOwn_spec ht c Key.hasInstanceSym ⟨Value.hi w, true, false, true⟩ ht' hdef
  refine ⟨Nat.le_trans I.size_le (Nat.le_of_eq hlen.symm), hop.trans I.objectProto_eq,
    hfp.trans I.functionProto_eq, fun a oa ha => ?_⟩
  obtain ⟨ob, hob, hbproto, hbext, hbkeep, hblast, hbHI⟩ := I.old a oa ha
  by_cases hac : a = c
  · subst hac
    rw [hgo] at hob
    cases hob
    refine ⟨o', hgo', hproto.trans hbproto, hext.trans hbext, ?_, ?_, ?_⟩
    · intro k hk
      exact (hkeep k hk).trans (hbkeep k hk)
    · intro k hk
      exact (hlast k hk).trans (hblast k hk)
    · exact Or.inr ⟨w, hHI, hw⟩
  · refine ⟨ob, ?_, hbproto, hbext, hbkeep, hblast, hbHI⟩
    rw [hother a hac]
    exact hob

theorem getPropAux_none (h : Heap) (fuel : Nat) (k : Key) :
    getPropAux h fuel none k = none := by
  cases fuel <;> rfl

/-- Reads of `Symbol.hasInstance` during a composition: from any
pre-existing object, the (coerced) read either fails, or yields a
predicate that was already readable before the composition, or yields an
additive wrapper installed during it. -/
theorem readHI_frame_aux (h0 ht : Heap) (W : wfClosed h0 = true) (I : FramedExt h0 ht) :
    ∀ fuel a, a < h0.objs.length →
      asHI ((getPropAux ht fuel (some a) Key.hasInstanceSym).map PropDesc.value) = none ∨
      ∃ f, asHI ((getPropAux ht fuel (some a) Key.hasInstanceSym).map PropDesc.value) = some f ∧
        ((∃ a', a' < h0.objs.length ∧ asHI (getPropValue h0 a' Key.hasInstanceSym) = some f) ∨
          AdditiveWrap h0 f) := by
  intro fuel
  induction fuel with
  | zero => intro a ha; left; rfl
  | succ fuel ih =>
    intro a ha
    obtain ⟨o, ho⟩ := heapGet_isSome_of_lt h0 a ha
    obtain ⟨o', ho', hproto, hext, hkeep, hlast, hHI⟩ := I.old a o ho
    rw [getPropAux, ho']
    rcases hHI with hsame | ⟨f, hf, hadd⟩
    · simp only [getOwnDesc, hsame]
      cases hd : getOwnD o.props Key.hasInstanceSym with
      | some d =>
        cases hv : d.value with
        | hi f =>
          right
          refine ⟨f, by simp [hv, asHI], Or.inl ⟨a, ha, ?_⟩⟩
          rw [getPropValue, getProp_of_own h0 a o Key.hasInstanceSym d ho hd]
          simp [hv, asHI]
        | undef => left; simp [hv, asHI]
        | str s => left; simp [hv, asHI]
        | int n => left; simp [hv, asHI]
        | addr b => left; simp [hv, asHI]
        | addrs l => left; simp [hv, asHI]
      | none =>
        rw [hproto]
        cases hp : o.proto with
        | none => left; simp [getPropAux_none, asHI]
        | some b =>
          exact ih b (wfClosed_proto h0 W a o ho b hp)
    · simp only [getOwnDesc, hf]
      right
      exact ⟨f, by simp [asHI], Or.inr hadd⟩

/-- `clonePrototype` preserves the frame relation, allocates exactly the
duplicate, leaves every pre-existing object's prototype, extensibility
and non-`Symbol.hasInstance` properties untouched, and only ever replaces
a `Symbol.hasInstance` by a wrapper over the value it just read. -/
theorem clonePrototype_inv (ht : Heap) (pa : Nat) (ht1 : Heap) (clone : Nat)
    (hc : clonePrototype ht pa = some (ht1, clone)) :
    clone = ht.objs.length ∧
    ∃ po cloneProps c,
      heapGet ht pa = some po ∧
      assignProp po.props (Key.str "constructor")
        ((getPropValue ht pa (Key.str "constructor")).getD Value.undef) = some cloneProps ∧
      getPropValue ht pa (Key.str "constructor") = some (Value.addr c) ∧
      defineOwn { ht with objs := ht.objs ++ [⟨cloneProps, none, true⟩] } c Key.hasInstanceSym
        ⟨Value.hi (match asHI (getPropValue { ht with objs := ht.objs ++ [⟨cloneProps, none, true⟩] } c Key.hasInstanceSym) with
                   | some f => HIFun.wrapper f ht.objs.length
                   | none => HIFun.wrapperOrphan ht.objs.length), true, false, true⟩ = some ht1 := by
  rw [clonePrototype.eq_def] at hc
  cases hpo : heapGet ht pa with
  | none => simp only [hpo] at hc; cases hc
  | some po =>
    simp only [hpo] at hc
    cases hcp : assignProp po.props (Key.str "constructor")
        ((getPropValue ht pa (Key.str "constructor")).getD Value.undef) with
    | none => simp only [hcp] at hc; cases hc
    | some cloneProps =>
      simp only [hcp] at hc
      cases hcv : getPropValue ht pa (Key.str "constructor") with
      | none => simp only [hcv] at hc; cases hc
      | some v =>
        cases v with
        | addr c =>
          simp only [hcv] at hc
          cases hdef : defineOwn { ht with objs := ht.objs ++ [⟨cloneProps, none, true⟩] } c
              Key.hasInstanceSym
              ⟨Value.hi (match asHI (getPropValue { ht with objs := ht.objs ++ [⟨cloneProps, none, true⟩] } c Key.hasInstanceSym) with
                         | some f => HIFun.wrapper f ht.objs.length
                         | none => HIFun.wrapperOrphan ht.objs.length), true, false, true⟩ with
          | none => rw [hdef] at hc; cases hc
          | some h2 =>
            rw [hdef] at hc
            cases hc
            refine ⟨rfl, po, cloneProps, c, rfl, ?_, rfl, hdef⟩
            rw [hcv] at hcp
            exact hcp
        | undef => simp only [hcv] at hc; cases hc
        | str s => simp only [hcv] at hc; cases hc
        | int n => simp only [hcv] at hc; cases hc
        | hi f => simp only [hcv] at hc; cases hc
        | addrs l => simp only [hcv] at hc; cases hc


/-- `clonePrototype` preserves the frame relation: the only write to a
pre-existing object is the additive `Symbol.hasInstance` redefinition. -/
theorem clonePrototype_frame (h0 ht : Heap) (W : wfClosed h0 = true) (I : FramedExt h0 ht)
    (pa : Nat) (ht1 : Heap) (clone : Nat)
    (hc : clonePrototype ht pa = some (ht1, clone)) :
    FramedExt h0 ht1 ∧ clone = ht.objs.length ∧ ht1.objs.length = ht.objs.length + 1 := by
  obtain ⟨hclone, po, cloneProps, c, hpo, hcp, hcv, hdef⟩ := clonePrototype_inv ht pa ht1 clone hc
  have IA : FramedExt h0 { ht with objs := ht.objs ++ [⟨cloneProps, none, true⟩] } :=
    framedExt_alloc h0 ht [⟨cloneProps, none, true⟩] I
  obtain ⟨hlen, hop, hfp, hother, odef, odef', hgo, hgo', _⟩ :=
    defineOwn_spec _ c Key.hasInstanceSym _ ht1 hdef
  have hlenA : ({ ht with objs := ht.objs ++ [⟨cloneProps, none, true⟩] } : Heap).objs.length
      = ht.objs.length + 1 := by simp
  refine ⟨?_, hclone, by omega⟩
  by_cases hcold : c < h0.objs.length
  · refine framedExt_defineHI h0 _ ht1 c _ IA hdef ?_
    have hr := readHI_frame_aux h0 { ht with objs := ht.objs ++ [⟨cloneProps, none, true⟩] } W IA
      ({ ht with objs := ht.objs ++ [⟨cloneProps, none, true⟩] } : Heap).objs.length c hcold
    rw [show ∀ hx : Heap, (getPropAux hx hx.objs.length (some c) Key.hasInstanceSym).map PropDesc.value
        = getPropValue hx c Key.hasInstanceSym from fun hx => rfl] at hr
    have hfreshc : h0.objs.length ≤ ht.objs.length := I.size_le
    rcases hr with hnone | ⟨f, hf, hpre | hadd⟩
    · rw [hnone]
      exact AdditiveWrap.orphan ht.objs.length hfreshc
    · rw [hf]
      obtain ⟨a', ha', hfa'⟩ := hpre
      exact AdditiveWrap.base f ht.objs.length hfreshc a' ha' hfa'
    · rw [hf]
      exact AdditiveWrap.step f ht.objs.length hadd hfreshc
  · refine framedExt_congr h0 _ ht1 IA (Nat.le_of_eq hlen.symm) hop hfp (fun a ha => ?_)
    exact hother a (fun hac => hcold (hac ▸ ha))

/-- `Object.setPrototypeOf` on a freshly allocated object preserves the
frame relation. -/
theorem framedExt_setProto_fresh (h0 ht ht' : Heap) (b p : Nat) (I : FramedExt h0 ht)
    (hb : h0.objs.length ≤ b) (hs : setProtoOf ht b p = some ht') : FramedExt h0 ht' := by
  obtain ⟨hlen, hop, hfp, hother, _⟩ := setProtoOf_spec ht b p ht' hs
  refine framedExt_congr h0 ht ht' I (Nat.le_of_eq hlen.symm) hop hfp (fun a ha => ?_)
  exact hother a (fun hab => by omega)

/-- Overwriting a freshly allocated object preserves the frame relation. -/
theorem framedExt_heapSet_fresh (h0 ht : Heap) (b : Nat) (o : Obj) (I : FramedExt h0 ht)
    (hb : h0.objs.length ≤ b) : FramedExt h0 (heapSet ht b o) := by
  refine framedExt_congr h0 ht _ I (by simp [heapSet]) rfl rfl (fun a ha => ?_)
  exact heapGet_set_ne ht b a o (fun hab => by omega)

/-- The `clonePrototypeDeep` loop preserves the frame relation: all its
prototype rewires target freshly created duplicates. -/
theorem cloneDeepAux_frame (h0 : Heap) (W : wfClosed h0 = true) :
    ∀ fuel ht lastC np ht1 lastR,
      FramedExt h0 ht → h0.objs.length ≤ lastC →
      cloneDeepAux fuel ht lastC np = some (ht1, lastR) →
      FramedExt h0 ht1 ∧ h0.objs.length ≤ lastR ∧ ht.objs.length ≤ ht1.objs.length := by
  intro fuel
  induction fuel with
  | zero =>
    intro ht lastC np ht1 lastR I hl hc
    cases np with
    | none => rw [cloneDeepAux] at hc; cases hc; exact ⟨I, hl, Nat.le_refl _⟩
    | some np =>
      rw [cloneDeepAux] at hc
      by_cases hobj : np = ht.objectProto
      · rw [if_pos hobj] at hc; cases hc; exact ⟨I, hl, Nat.le_refl _⟩
      · rw [if_neg hobj] at hc; cases hc
  | succ fuel ih =>
    intro ht lastC np ht1 lastR I hl hc
    cases np with
    | none => rw [cloneDeepAux] at hc; cases hc; exact ⟨I, hl, Nat.le_refl _⟩
    | some np =>
      rw [cloneDeepAux] at hc
      by_cases hobj : np = ht.objectProto
      · rw [if_pos hobj] at hc; cases hc; exact ⟨I, hl, Nat.le_refl _⟩
      · rw [if_neg hobj] at hc
        cases hcp : clonePrototype ht np with
        | none => simp only [hcp] at hc; cases hc
        | some pr =>
          obtain ⟨htA, npClone⟩ := pr
          simp only [hcp] at hc
          cases hsp : setProtoOf htA lastC npClone with
          | none => simp only [hsp] at hc; cases hc
          | some ht2 =>
            simp only [hsp] at hc
            obtain ⟨IA, hclone, hlenA⟩ := clonePrototype_frame h0 ht W I np htA npClone hcp
            have hfresh : h0.objs.length ≤ npClone := by
              rw [hclone]; exact I.size_le
            have I2 : FramedExt h0 ht2 := framedExt_setProto_fresh h0 htA ht2 lastC npClone IA hl hsp
            obtain ⟨hlen2, _, _, _, _⟩ := setProtoOf_spec htA lastC npClone ht2 hsp
            obtain ⟨I3, hr, hlen3⟩ := ih ht2 npClone _ ht1 lastR I2 hfresh hc
            exact ⟨I3, hr, by omega⟩

/-- `clonePrototypeDeep` preserves the frame relation; the head duplicate
and the returned `lastPrototype` are freshly allocated. -/
theorem clonePrototypeDeep_frame (h0 ht : Heap) (W : wfClosed h0 = true) (I : FramedExt h0 ht)
    (pa : Nat) (ht1 : Heap) (head lastR : Nat)
    (hc : clonePrototypeDeep ht pa = some (ht1, head, lastR)) :
    FramedExt h0 ht1 ∧ head = ht.objs.length ∧ h0.objs.length ≤ lastR ∧
      ht.objs.length < ht1.objs.length := by
  rw [clonePrototypeDeep.eq_def] at hc
  cases hcp : clonePrototype ht pa with
  | none => simp only [hcp] at hc; cases hc
  | some pr =>
    obtain ⟨htA, clone⟩ := pr
    simp only [hcp] at hc
    cases hda : cloneDeepAux ht.objs.length htA clone ((heapGet htA pa).bind Obj.proto) with
    | none => simp only [hda] at hc; cases hc
    | some pr2 =>
      obtain ⟨ht2, lastP⟩ := pr2
      simp only [hda] at hc
      obtain ⟨IA, hclone, hlenA⟩ := clonePrototype_frame h0 ht W I pa htA clone hcp
      have hfresh : h0.objs.length ≤ clone := by rw [hclone]; exact I.size_le
      obtain ⟨I2, hr, hlen2⟩ := cloneDeepAux_frame h0 W ht.objs.length htA clone _ ht2 lastP IA hfresh hda
      cases hc
      exact ⟨I2, hclone, hr, by omega⟩

/-- The chain loop of `Mix` preserves the frame relation; the running
`lastPrototype` stays freshly allocated. -/
theorem mixChainLoop_frame (h0 : Heap) (W : wfClosed h0 = true) :
    ∀ cs ht lastP ht1 lastR,
      FramedExt h0 ht → h0.objs.length ≤ lastP →
      mixChainLoop ht lastP cs = some (ht1, lastR) →
      FramedExt h0 ht1 ∧ h0.objs.length ≤ lastR ∧ ht.objs.length ≤ ht1.objs.length := by
  intro cs
  induction cs with
  | nil =>
    intro ht lastP ht1 lastR I hl hc
    rw [mixChainLoop] at hc
    cases hc
    exact ⟨I, hl, Nat.le_refl _⟩
  | cons c cs ih =>
    intro ht lastP ht1 lastR I hl hc
    rw [mixChainLoop] at hc
    cases hpc : protoAddrVal ht c.addr with
    | none => simp only [hpc] at hc; cases hc
    | some pc =>
      simp only [hpc] at hc
      cases hdeep : clonePrototypeDeep ht pc with
      | none => simp only [hdeep] at hc; cases hc
      | some pr =>
        obtain ⟨htA, headClone, lastOfClone⟩ := pr
        simp only [hdeep] at hc
        cases hsp : setProtoOf htA lastP headClone with
        | none => simp only [hsp] at hc; cases hc
        | some ht2 =>
          simp only [hsp] at hc
          cases hnl : (heapGet ht2 lastP).bind Obj.proto with
          | none => simp only [hnl] at hc; cases hc
          | some newLast =>
            simp only [hnl] at hc
            obtain ⟨IA, hhead, hfreshLast, hlenA⟩ :=
              clonePrototypeDeep_frame h0 ht W I pc htA headClone lastOfClone hdeep
            have I2 : FramedExt h0 ht2 :=
              framedExt_setProto_fresh h0 htA ht2 lastP headClone IA hl hsp
            obtain ⟨hlen2, _, _, hother2, o, o', hgo, hgo', hprops, hext, hproto⟩ :=
              setProtoOf_spec htA lastP headClone ht2 hsp
            have hnewfresh : h0.objs.length ≤ newLast := by
              rw [hgo'] at hnl
              simp only [Option.bind, hproto] at hnl
              cases hnl
              rw [hhead]
              exact I.size_le
            obtain ⟨I3, hr, hlen3⟩ := ih ht2 newLast ht1 lastR I2 hnewfresh hc
            exact ⟨I3, hr, by omega⟩

/-- The statics pass preserves the frame relation: it writes only to the
freshly created `create`. -/
theorem staticsLoop_frame (h0 : Heap) :
    ∀ cs ht createA ht1,
      FramedExt h0 ht → h0.objs.length ≤ createA →
      staticsLoop ht createA cs = some ht1 → FramedExt h0 ht1 := by
  intro cs
  induction cs with
  | nil =>
    intro ht createA ht1 I _ hc
    rw [staticsLoop] at hc
    cases hc
    exact I
  | cons c cs ih =>
    intro ht createA ht1 I hcr hc
    rw [staticsLoop] at hc
    cases htg : heapGet ht createA with
    | none => simp only [htg] at hc; cases hc
    | some tgt =>
      simp only [htg] at hc
      cases hsg : heapGet ht c.addr with
      | none => simp only [hsg] at hc; cases hc
      | some src =>
        simp only [hsg] at hc
        cases haa : assignAll tgt.props src.props with
        | none => simp only [haa] at hc; cases hc
        | some props' =>
          simp only [haa] at hc
          exact ih _ createA ht1 (framedExt_heapSet_fresh h0 ht createA _ I hcr) hcr hc

/-- Full inversion of a successful `Mix` with at least two sources into
its documented steps. -/
theorem Mix_inv (h : Heap) (c0 c1 : Ctor) (rest : List Ctor) (h6 : Heap) (create : Ctor)
    (hMix : Mix h (c0 :: c1 :: rest) = some (h6, create)) :
    ∃ lastC pc0 h1 proto0 last0 h2 lastP lcp h3 h5,
      (c0 :: c1 :: rest).getLast? = some lastC ∧
      protoAddrVal h c0.addr = some pc0 ∧
      clonePrototypeDeep h pc0 = some (h1, proto0, last0) ∧
      mixChainLoop h1 last0 (c1 :: rest) = some (h2, lastP) ∧
      protoAddrVal h2 lastC.addr = some lcp ∧
      setProtoOf h2 lastP lcp = some h3 ∧
      setProtoOf (allocCreate h3 pc0 (c0 :: c1 :: rest) c0) h3.objs.length proto0 = some h5 ∧
      staticsLoop h5 (h3.objs.length + 1) (c0 :: c1 :: rest) = some h6 ∧
      create = ⟨h3.objs.length + 1, dispatchProps (c0 :: c1 :: rest)⟩ := by
  rw [Mix] at hMix
  cases hlast : (c0 :: c1 :: rest).getLast? with
  | none => simp only [hlast] at hMix; cases hMix
  | some lastC =>
    simp only [hlast] at hMix
    cases hpc0 : protoAddrVal h c0.addr with
    | none => simp only [hpc0] at hMix; cases hMix
    | some pc0 =>
      simp only [hpc0] at hMix
      cases hdeep : clonePrototypeDeep h pc0 with
      | none => simp only [hdeep] at hMix; cases hMix
      | some pr =>
        obtain ⟨h1, proto0, last0⟩ := pr
        simp only [hdeep] at hMix
        cases hloop : mixChainLoop h1 last0 (c1 :: rest) with
        | none => simp only [hloop] at hMix; cases hMix
        | some pr2 =>
          obtain ⟨h2, lastP⟩ := pr2
          simp only [hloop] at hMix
          cases hlcp : protoAddrVal h2 lastC.addr with
          | none => simp only [hlcp] at hMix; cases hMix
          | some lcp =>
            simp only [hlcp] at hMix
            cases hset : setProtoOf h2 lastP lcp with
            | none => simp only [hset] at hMix; cases hMix
            | some h3 =>
              simp only [hset] at hMix
              cases hset2 : setProtoOf (allocCreate h3 pc0 (c0 :: c1 :: rest) c0)
                  h3.objs.length proto0 with
              | none => simp only [hset2] at hMix; cases hMix
              | some h5 =>
                simp only [hset2] at hMix
                cases hstat : staticsLoop h5 (h3.objs.length + 1) (c0 :: c1 :: rest) with
                | none => simp only [hstat] at hMix; cases hMix
                | some h6' =>
                  simp only [hstat] at hMix
                  cases hMix
                  exact ⟨lastC, pc0, h1, proto0, last0, h2, lastP, lcp, h3, h5,
                    rfl, rfl, hdeep, hloop, hlcp, hset, hset2, hstat, rfl⟩

/-! ### C8 — composition never structurally alters the sources -/

/-- C8: a successful composition over a closed heap leaves every
pre-existing object intact — same prototype link, same extensibility,
same own properties other than `Symbol.hasInstance` (so the member-table
duplicates are never shared back into the originals) — and the only
modification is the additive augmentation of `Symbol.hasInstance`, which
becomes a nest of wrappers over freshly allocated duplicates that bottoms
out at a previously readable predicate (`AdditiveWrap`). -/
theorem mix_preserves_sources (h : Heap) (cs : List Ctor) (h' : Heap) (create : Ctor)
    (W : wfClosed h = true) (hMix : Mix h cs = some (h', create)) : FramedExt h h' := by
  match cs with
  | [] =>
    rw [Mix] at hMix
    cases hMix
    exact framedExt_alloc h h _ (framedExt_refl h)
  | [c] =>
    rw [Mix] at hMix
    cases hMix
    exact framedExt_refl h
  | c0 :: c1 :: rest =>
    obtain ⟨lastC, pc0, h1, proto0, last0, h2, lastP, lcp, h3, h5,
      hlast, hpc0, hdeep, hloop, hlcp, hset, hset2, hstat, hcr⟩ :=
      Mix_inv h c0 c1 rest h' create hMix
    obtain ⟨I1, hhead, hfresh0, hlen1⟩ :=
      clonePrototypeDeep_frame h h W (framedExt_refl h) pc0 h1 proto0 last0 hdeep
    obtain ⟨I2, hfreshP, hlen2⟩ :=
      mixChainLoop_frame h W (c1 :: rest) h1 last0 h2 lastP I1 hfresh0 hloop
    have I3 : FramedExt h h3 := framedExt_setProto_fresh h h2 h3 lastP lcp I2 hfreshP hset
    obtain ⟨hlen3, _, _, _, _⟩ := setProtoOf_spec h2 lastP lcp h3 hset
    have I4 : FramedExt h (allocCreate h3 pc0 (c0 :: c1 :: rest) c0) :=
      framedExt_alloc h h3 _ I3
    have hfreshCP : h.objs.length ≤ h3.objs.length := I3.size_le
    have I5 : FramedExt h h5 :=
      framedExt_setProto_fresh h _ h5 h3.objs.length proto0 I4 hfreshCP hset2
    exact staticsLoop_frame h (c0 :: c1 :: rest) h5 (h3.objs.length + 1) h' I5
      (by omega) hstat

/-- Witness for C8 at a concrete input: the `Mix(Foo, Bar)` scenario. -/
theorem mix_preserves_sources_witness :
    FramedExt barStep.1 fooBarHeap :=
  mix_preserves_sources barStep.1 [fooStep.2, barStep.2] fooBarHeap
    ⟨9, dispatchProps [fooStep.2, barStep.2]⟩ (by decide) rfl


/-- `Object.assign` writes do not disturb other keys' descriptors. -/
theorem assignProp_getOwnD_ne (tgt : List (Key × PropDesc)) (k' : Key) (v : Value)
    (t1 : List (Key × PropDesc)) (hset : assignProp tgt k' v = some t1)
    (k : Key) (hk : k ≠ k') : getOwnD t1 k = getOwnD tgt k := by
  rw [assignProp.eq_def] at hset
  cases hf : getOwnD tgt k' with
  | some d =>
    simp only [hf] at hset
    by_cases hw : d.writable = true
    · rw [if_pos hw] at hset
      cases hset
      rw [getOwnD_setProps, if_neg (Ne.symm hk)]
    · rw [if_neg hw] at hset; cases hset
  | none =>
    simp only [hf] at hset
    cases hset
    rw [getOwnD_append]
    simp [getOwnD, Ne.symm hk]

/-- `Object.assign` leaves non-writable own properties of the target
untouched (an attempt to overwrite one would have thrown). -/
theorem assignAll_keep_nonwritable (src : List (Key × PropDesc)) :
    ∀ tgt tgt', assignAll tgt src = some tgt' →
      ∀ k d, getOwnD tgt k = some d → d.writable = false → getOwnD tgt' k = some d := by
  induction src with
  | nil =>
    intro tgt tgt' h k d hd _
    rw [assignAll] at h; cases h; exact hd
  | cons p ps ih =>
    intro tgt tgt' h k d hd hw
    obtain ⟨pk, pd⟩ := p
    rw [assignAll] at h
    by_cases he : pd.enumerable = true
    · rw [if_pos he] at h
      cases ha : assignProp tgt pk pd.value with
      | none => simp only [ha] at h; cases h
      | some t1 =>
        simp only [ha] at h
        by_cases hpk : k = pk
        · subst hpk
          rw [assignProp.eq_def, hd] at ha
          simp only [hw] at ha
          cases ha
        · exact ih t1 tgt' h k d ((assignProp_getOwnD_ne tgt pk pd.value t1 ha k hpk) ▸ hd) hw
    · rw [if_neg he] at h
      exact ih tgt tgt' h k d hd hw

/-- The statics pass, pointwise: the final own table of `create` holds,
under each key, the last source's enumerable own entry (later sources
win), falling back to `create`'s own initial entry; non-writable initial
own properties of `create` survive untouched. -/
theorem staticsLoop_pointwise :
    ∀ (cs : List Ctor) (pss : List (List (Key × PropDesc))) (ht : Heap) (createA : Nat)
      (ht1 : Heap) (tgt : Obj),
      heapGet ht createA = some tgt →
      List.Forall₂ (fun (c : Ctor) ps => c.addr ≠ createA ∧
        ∃ so, heapGet ht c.addr = some so ∧ so.props = ps) cs pss →
      staticsLoop ht createA cs = some ht1 →
      ∃ tgt', heapGet ht1 createA = some tgt' ∧ tgt'.proto = tgt.proto ∧
        tgt'.extensible = tgt.extensible ∧
        (∀ k, lookupValue tgt'.props k = match staticsEnumVal pss k with
          | some v => some v
          | none => lookupValue tgt.props k) ∧
        (∀ k d, getOwnD tgt.props k = some d → d.writable = false →
          getOwnD tgt'.props k = some d) := by
  intro cs
  induction cs with
  | nil =>
    intro pss ht createA ht1 tgt htgt hsrcs hrun
    cases hsrcs
    rw [staticsLoop] at hrun
    cases hrun
    exact ⟨tgt, htgt, rfl, rfl, fun k => by simp [staticsEnumVal], fun k d hd _ => hd⟩
  | cons c cs ih =>
    intro pss ht createA ht1 tgt htgt hsrcs hrun
    obtain ⟨ps2, pss2, hhead, htail, rfl⟩ := List.forall₂_cons_left_iff.mp hsrcs
    obtain ⟨hne, so, hso, hsoprops⟩ := hhead
    subst hsoprops
    rw [staticsLoop] at hrun
    simp only [htgt, hso] at hrun
    cases haa : assignAll tgt.props so.props with
    | none => simp only [haa] at hrun; cases hrun
    | some props2 =>
      simp only [haa] at hrun
      have hcrlt := heapGet_lt ht createA tgt htgt
      have htgt2 : heapGet (heapSet ht createA { tgt with props := props2 }) createA
          = some { tgt with props := props2 } := heapGet_set_self ht createA _ hcrlt
      have htail2 : List.Forall₂ (fun (c2 : Ctor) ps => c2.addr ≠ createA ∧
          ∃ so2, heapGet (heapSet ht createA { tgt with props := props2 }) c2.addr = some so2 ∧
            so2.props = ps) cs pss2 := by
        refine List.Forall₂.imp ?_ htail
        rintro c2 ps ⟨hne2, so2, hso2, hp2⟩
        exact ⟨hne2, so2, (heapGet_set_ne ht createA c2.addr _ (fun he => hne2 he.symm)).trans hso2, hp2⟩
      obtain ⟨tgt', hg', hp', he', hpoint, hkeep⟩ :=
        ih pss2 (heapSet ht createA { tgt with props := props2 }) createA ht1
          { tgt with props := props2 } htgt2 htail2 hrun
      refine ⟨tgt', hg', hp', he', ?_, ?_⟩
      · intro k
        rw [hpoint k]
        have hassign := assignAll_lookupValue so.props tgt.props props2 haa k
        rw [staticsEnumVal]
        cases staticsEnumVal pss2 k with
        | some v => rfl
        | none =>
          simp only []
          rw [hassign]
      · intro k d hd hw
        exact hkeep k d (assignAll_keep_nonwritable so.props tgt.props props2 haa k d hd hw) hw

/-- Transport of sources' class-level tables through a frame extension:
each source's entries as seen from the extended heap (outside the
hidden `Symbol.hasInstance` slot) match its original ones. -/
theorem framed_srcs_transport (h h5 : Heap) (I : FramedExt h h5) (createA : Nat)
    (hbig : h.objs.length ≤ createA) (s : String) :
    ∀ (cs : List Ctor) (pss : List (List (Key × PropDesc))),
      List.Forall₂ (fun (c : Ctor) ps => ∃ so, heapGet h c.addr = some so ∧ so.props = ps)
        cs pss →
      ∃ pss2, List.Forall₂ (fun (c : Ctor) ps => c.addr ≠ createA ∧
          ∃ so, heapGet h5 c.addr = some so ∧ so.props = ps) cs pss2 ∧
        List.Forall₂ (fun ps2 ps => lastEnumVal ps2 (Key.str s) = lastEnumVal ps (Key.str s))
          pss2 pss := by
  intro cs
  induction cs with
  | nil =>
    intro pss hf
    cases hf
    exact ⟨[], List.Forall₂.nil, List.Forall₂.nil⟩
  | cons c cs ih =>
    intro pss hf
    obtain ⟨ps2, pss2, hhead, htail, rfl⟩ := List.forall₂_cons_left_iff.mp hf
    obtain ⟨pssB, hf1, hf2⟩ := ih pss2 htail
    obtain ⟨so, hso, hprops⟩ := hhead
    obtain ⟨so', hso', hproto', hext', hkeep', hlast', _⟩ := I.old _ so hso
    refine ⟨so'.props :: pssB, List.Forall₂.cons ⟨?_, so', hso', rfl⟩ hf1,
      List.Forall₂.cons ?_ hf2⟩
    · have := heapGet_lt h _ so hso
      omega
    · rw [hlast' (Key.str s) (by intro hcon; cases hcon), hprops]

/-- `staticsEnumVal` only depends on the per-source `lastEnumVal` views. -/
theorem staticsEnumVal_congr (k : Key) :
    ∀ pss pss', List.Forall₂ (fun ps ps' => lastEnumVal ps k = lastEnumVal ps' k) pss pss' →
      staticsEnumVal pss k = staticsEnumVal pss' k := by
  intro pss
  induction pss with
  | nil => intro pss' hf; cases hf; rfl
  | cons ps pss ih =>
    intro pss' hf
    cases hf with
    | cons hhead htail =>
      rw [staticsEnumVal, staticsEnumVal, ih _ htail, hhead]

/-- C5 amended: after a successful composition, the composite type's own
class-level table holds, under every (non-`prototype`) string name, the
last source's own *enumerable* class-level entry under that name — later
sources overwrite earlier ones, and sources' non-enumerable class-level
data after the first source is not copied. -/
theorem mix_statics_pointwise (h : Heap) (c0 c1 : Ctor) (rest : List Ctor)
    (h6 : Heap) (create : Ctor) (W : wfClosed h = true)
    (hMix : Mix h (c0 :: c1 :: rest) = some (h6, create))
    (pss : List (List (Key × PropDesc)))
    (hsrcs : List.Forall₂ (fun (c : Ctor) ps => ∃ so, heapGet h c.addr = some so ∧ so.props = ps)
      (c0 :: c1 :: rest) pss)
    (s : String) (hs : s ≠ "prototype") :
    ∃ co, heapGet h6 create.addr = some co ∧
      lookupValue co.props (Key.str s) = staticsEnumVal pss (Key.str s) := by
  obtain ⟨lastC, pc0, h1, proto0, last0, h2, lastP, lcp, h3, h5,
    hlast, hpc0, hdeep, hloop, hlcp, hset, hset2, hstat, hcr⟩ :=
    Mix_inv h c0 c1 rest h6 create hMix
  obtain ⟨I1, hhead, hfresh0, hlen1⟩ :=
    clonePrototypeDeep_frame h h W (framedExt_refl h) pc0 h1 proto0 last0 hdeep
  obtain ⟨I2, hfreshP, hlen2⟩ :=
    mixChainLoop_frame h W (c1 :: rest) h1 last0 h2 lastP I1 hfresh0 hloop
  have I3 : FramedExt h h3 := framedExt_setProto_fresh h h2 h3 lastP lcp I2 hfreshP hset
  obtain ⟨hlen3, _, _, _, _⟩ := setProtoOf_spec h2 lastP lcp h3 hset
  have I4 : FramedExt h (allocCreate h3 pc0 (c0 :: c1 :: rest) c0) :=
    framedExt_alloc h h3 _ I3
  have hfreshCP : h.objs.length ≤ h3.objs.length := I3.size_le
  have I5 : FramedExt h h5 :=
    framedExt_setProto_fresh h _ h5 h3.objs.length proto0 I4 hfreshCP hset2
  -- `create`'s function object in h5
  have hget4 : heapGet (allocCreate h3 pc0 (c0 :: c1 :: rest) c0) (h3.objs.length + 1)
      = some (createFnObjOf h3 (c0 :: c1 :: rest) c0) := by
    rw [allocCreate, heapGet]
    rw [List.getElem?_append_right (by omega)]
    simp
  obtain ⟨_, _, _, hother5, _⟩ :=
    setProtoOf_spec (allocCreate h3 pc0 (c0 :: c1 :: rest) c0) h3.objs.length proto0 h5 hset2
  have hget5 : heapGet h5 (h3.objs.length + 1) = some (createFnObjOf h3 (c0 :: c1 :: rest) c0) := by
    rw [hother5 (h3.objs.length + 1) (by omega)]
    exact hget4
  obtain ⟨pss', hf1, hf2⟩ :=
    framed_srcs_transport h h5 I5 (h3.objs.length + 1) (by omega) s (c0 :: c1 :: rest) pss hsrcs
  have hca : create.addr = h3.objs.length + 1 := by rw [hcr]
  obtain ⟨tgt', hg', _, _, hpoint, _⟩ :=
    staticsLoop_pointwise (c0 :: c1 :: rest) pss' h5 (h3.objs.length + 1) h6
      (createFnObjOf h3 (c0 :: c1 :: rest) c0) hget5 hf1 hstat
  refine ⟨tgt', by rw [hca]; exact hg', ?_⟩
  rw [hpoint (Key.str s), staticsEnumVal_congr (Key.str s) pss' pss hf2]
  have hinit : lookupValue (createFnObjOf h3 (c0 :: c1 :: rest) c0).props (Key.str s) = none := by
    simp [createFnObjOf, lookupValue, getOwnD, Ne.symm hs]
  rw [hinit]
  cases staticsEnumVal pss (Key.str s) <;> rfl

/-- Witness for C5's amended claim: with both `value` statics enumerable,
`Mix(A5e, B5e)` yields `value = "b"` and `Mix(B5e, A5e)` yields
`value = "a"` (order-sensitive, later source wins). -/
theorem mix_statics_pointwise_witness :
    (∃ co, heapGet mix5abHeap 9 = some co ∧
      lookupValue co.props (Key.str "value") = some (Value.str "b")) ∧
    (∃ co, heapGet mix5baHeap 9 = some co ∧
      lookupValue co.props (Key.str "value") = some (Value.str "a")) :=
  ⟨mix_statics_pointwise c5eHeap ⟨3, fun _ => some []⟩ ⟨5, fun _ => some []⟩ [] mix5abHeap
      ⟨9, dispatchProps [⟨3, fun _ => some []⟩, ⟨5, fun _ => some []⟩]⟩ (by decide) rfl
      [[(Key.str "prototype", ⟨Value.addr 2, false, false, false⟩), (Key.str "value", ⟨Value.str "a", true, true, true⟩)],
       [(Key.str "prototype", ⟨Value.addr 4, false, false, false⟩), (Key.str "value", ⟨Value.str "b", true, true, true⟩)]]
      (List.Forall₂.cons ⟨_, rfl, rfl⟩ (List.Forall₂.cons ⟨_, rfl, rfl⟩ List.Forall₂.nil))
      "value" (by decide),
   mix_statics_pointwise c5eHeap ⟨5, fun _ => some []⟩ ⟨3, fun _ => some []⟩ [] mix5baHeap
      ⟨9, dispatchProps [⟨5, fun _ => some []⟩, ⟨3, fun _ => some []⟩]⟩ (by decide) rfl
      [[(Key.str "prototype", ⟨Value.addr 4, false, false, false⟩), (Key.str "value", ⟨Value.str "b", true, true, true⟩)],
       [(Key.str "prototype", ⟨Value.addr 2, false, false, false⟩), (Key.str "value", ⟨Value.str "a", true, true, true⟩)]]
      (List.Forall₂.cons ⟨_, rfl, rfl⟩ (List.Forall₂.cons ⟨_, rfl, rfl⟩ List.Forall₂.nil))
      "value" (by decide)⟩


/-! ### C1 — a composite instance passes the check for every source -/

theorem upChain_le (h : Heap) : ∀ n a b, UpChain h n a b → a + n ≤ b := by
  intro n a b hch
  induction hch with
  | refl a => omega
  | step a x b n hp hax tail ih => omega

theorem upChain_preserve (h h2 : Heap) :
    ∀ n a b, UpChain h n a b → (∀ x, x < b → protoAt h2 x = protoAt h x) →
      UpChain h2 n a b := by
  intro n a b hch
  induction hch with
  | refl a => intro _; exact UpChain.refl a
  | step a x b n hp hax tail ih =>
    intro hpres
    have hab : a < b := by have := upChain_le h n x b tail; omega
    exact UpChain.step a x b n ((hpres a hab).trans hp) hax (ih hpres)

theorem upChain_snoc (h : Heap) : ∀ n a b, UpChain h n a b →
    ∀ c, protoAt h b = some c → b < c → UpChain h (n + 1) a c := by
  intro n a b hch
  induction hch with
  | refl a =>
    intro c hp hbc
    exact UpChain.step a c c 0 hp hbc (UpChain.refl c)
  | step a x b n hp hax tail ih =>
    intro c hpc hbc
    exact UpChain.step a x c (n + 1) hp hax (ih c hpc hbc)

theorem upChain_hasProtoAux (h : Heap) :
    ∀ n a b, UpChain h n a b → ∀ fuel, n < fuel →
      hasProtoAux h fuel (some a) b = true := by
  intro n a b hch
  induction hch with
  | refl a =>
    intro fuel hf
    cases fuel with
    | zero => omega
    | succ f => simp [hasProtoAux]
  | step a x b n hp hax tail ih =>
    intro fuel hf
    cases fuel with
    | zero => omega
    | succ f =>
      simp only [hasProtoAux]
      by_cases hab : a = b
      · rw [if_pos hab]
      · rw [if_neg hab]
        have hp2 : (heapGet h a).bind Obj.proto = some x := hp
        rw [hp2]
        exact ih f (by omega)

/-- A wrapper nest accepts any object that has one of its recognized
duplicates on its prototype chain. -/
theorem runHI_of_cloneSet (h : Heap) (x : Nat) :
    ∀ (w : HIFun) (cl : Nat), cl ∈ cloneSet w → hasPrototype h x cl = true →
      ∀ t, runHI h w t x = true := by
  intro w
  induction w with
  | native => intro cl hm _ _; simp [cloneSet] at hm
  | wrapperOrphan c =>
    intro cl hm hp t
    simp [cloneSet] at hm
    subst hm
    simpa [runHI] using hp
  | wrapper f c ihf =>
    intro cl hm hp t
    simp [cloneSet] at hm
    rcases hm with rfl | hm2
    · simp [runHI, hp]
    · simp [runHI, ihf cl hm2 hp none]

theorem protoAt_append (ht : Heap) (os : List Obj) (x : Nat) (hx : x < ht.objs.length) :
    protoAt { ht with objs := ht.objs ++ os } x = protoAt ht x := by
  rw [protoAt, protoAt, heapGet_append_lt ht os x hx]

theorem defineOwn_protoAt (ht : Heap) (a : Nat) (k : Key) (d : PropDesc) (ht1 : Heap)
    (hdef : defineOwn ht a k d = some ht1) (x : Nat) : protoAt ht1 x = protoAt ht x := by
  obtain ⟨_, _, _, hother, o, o2, hgo, hgo2, hproto, _⟩ := defineOwn_spec ht a k d ht1 hdef
  by_cases hxa : x = a
  · subst hxa
    rw [protoAt, protoAt, hgo, hgo2]
    simp [hproto]
  · rw [protoAt, protoAt, hother x hxa]

theorem setProtoOf_protoAt_ne (ht : Heap) (t p : Nat) (ht1 : Heap)
    (hs : setProtoOf ht t p = some ht1) (x : Nat) (hx : x ≠ t) :
    protoAt ht1 x = protoAt ht x := by
  obtain ⟨_, _, _, hother, _⟩ := setProtoOf_spec ht t p ht1 hs
  rw [protoAt, protoAt, hother x hx]

theorem setProtoOf_protoAt_self (ht : Heap) (t p : Nat) (ht1 : Heap)
    (hs : setProtoOf ht t p = some ht1) : protoAt ht1 t = some p := by
  obtain ⟨_, _, _, _, o, o2, _, hgt2, _, _, hproto⟩ := setProtoOf_spec ht t p ht1 hs
  rw [protoAt, hgt2]
  simp [hproto]

theorem clonePrototype_len (ht : Heap) (pa : Nat) (ht1 : Heap) (clone : Nat)
    (hc : clonePrototype ht pa = some (ht1, clone)) :
    ht1.objs.length = ht.objs.length + 1 := by
  obtain ⟨_, po, cloneProps, c, _, _, _, hdef⟩ := clonePrototype_inv ht pa ht1 clone hc
  obtain ⟨hlen, _⟩ := defineOwn_spec _ c Key.hasInstanceSym _ ht1 hdef
  simpa using hlen

theorem clonePrototype_protoAt (ht : Heap) (pa : Nat) (ht1 : Heap) (clone : Nat)
    (hc : clonePrototype ht pa = some (ht1, clone)) (x : Nat) (hx : x < ht.objs.length) :
    protoAt ht1 x = protoAt ht x := by
  obtain ⟨_, po, cloneProps, c, _, _, _, hdef⟩ := clonePrototype_inv ht pa ht1 clone hc
  rw [defineOwn_protoAt _ c Key.hasInstanceSym _ ht1 hdef x]
  exact protoAt_append ht _ x hx

/-- Re-augmenting a constructor wraps the predicate it already holds, so
an own wrapper nest only ever grows: every duplicate it recognized stays
recognized. -/
theorem ownHIHas_clonePrototype (ht : Heap) (pa : Nat) (ht1 : Heap) (clone : Nat)
    (hc : clonePrototype ht pa = some (ht1, clone)) (a cl : Nat)
    (hown : OwnHIHas ht a cl) : OwnHIHas ht1 a cl := by
  obtain ⟨o, w, ho, hw, hm⟩ := hown
  obtain ⟨hclone, po, cloneProps, c, hpo, hcp, hcv, hdef⟩ := clonePrototype_inv ht pa ht1 clone hc
  have hlt := heapGet_lt ht a o ho
  have ho1 : heapGet ({ ht with objs := ht.objs ++ [⟨cloneProps, none, true⟩] } : Heap) a
      = some o := by
    rw [heapGet_append_lt ht _ a hlt]
    exact ho
  by_cases hac : a = c
  · subst hac
    have hread : getPropValue { ht with objs := ht.objs ++ [⟨cloneProps, none, true⟩] } a
        Key.hasInstanceSym = some (Value.hi w) := by
      rw [getPropValue, getProp_of_own _ a o Key.hasInstanceSym _ ho1 hw]
      rfl
    rw [hread] at hdef
    simp only [asHI] at hdef
    obtain ⟨_, _, _, _, o1, o2, hgo1, hgo2, _, _, _, _, hHInew⟩ :=
      defineOwn_spec _ a Key.hasInstanceSym _ ht1 hdef
    exact ⟨o2, HIFun.wrapper w ht.objs.length, hgo2, hHInew, List.mem_cons_of_mem _ hm⟩
  · obtain ⟨_, _, _, hother, _⟩ := defineOwn_spec _ c Key.hasInstanceSym _ ht1 hdef
    exact ⟨o, w, by rw [hother a hac]; exact ho1, hw, hm⟩

theorem ownHIHas_setProtoOf (ht : Heap) (t p : Nat) (ht1 : Heap)
    (hs : setProtoOf ht t p = some ht1) (a cl : Nat) (hown : OwnHIHas ht a cl) :
    OwnHIHas ht1 a cl := by
  obtain ⟨o, w, ho, hw, hm⟩ := hown
  obtain ⟨_, _, _, hother, ot, ot2, hgt, hgt2, hprops, _, _⟩ := setProtoOf_spec ht t p ht1 hs
  by_cases hat : a = t
  · subst hat
    rw [ho] at hgt
    cases hgt
    exact ⟨ot2, w, hgt2, by rw [hprops]; exact hw, hm⟩
  · exact ⟨o, w, by rw [hother a hat]; exact ho, hw, hm⟩

theorem ownHIHas_append (ht : Heap) (os : List Obj) (a cl : Nat) (hown : OwnHIHas ht a cl) :
    OwnHIHas { ht with objs := ht.objs ++ os } a cl := by
  obtain ⟨o, w, ho, hw, hm⟩ := hown
  exact ⟨o, w, by rw [heapGet_append_lt ht os a (heapGet_lt ht a o ho)]; exact ho, hw, hm⟩

/-- The augmentation step installs, on the constructor the member table
points back at, an own wrapper that recognizes the fresh duplicate. -/
theorem clonePrototype_installs (ht : Heap) (pa : Nat) (ht1 : Heap) (clone : Nat)
    (hc : clonePrototype ht pa = some (ht1, clone)) (c : Nat)
    (hcv : getPropValue ht pa (Key.str "constructor") = some (Value.addr c)) :
    OwnHIHas ht1 c clone := by
  obtain ⟨hclone, po, cloneProps, c2, hpo, hcp, hcv2, hdef⟩ := clonePrototype_inv ht pa ht1 clone hc
  have hcc : Value.addr c2 = Value.addr c := Option.some.inj (hcv2.symm.trans hcv)
  cases hcc
  obtain ⟨_, _, _, _, o1, o2, hgo1, hgo2, _, _, _, _, hHInew⟩ :=
    defineOwn_spec _ c Key.hasInstanceSym _ ht1 hdef
  subst hclone
  refine ⟨o2, _, hgo2, hHInew, ?_⟩
  cases hX : asHI (getPropValue { ht with objs := ht.objs ++ [⟨cloneProps, none, true⟩] } c
      Key.hasInstanceSym) with
  | none => simp [hX, cloneSet]
  | some f => simp [hX, cloneSet]


/-- The deep-clone loop, fully tracked: heap growth, the returned
`lastPrototype` not below the incoming one, prototype links below the
incoming clone untouched, own wrapper nests only growing, and any
increasing chain ending at the incoming clone extending to one ending at
the returned `lastPrototype`. -/
theorem cloneDeepAux_inv :
    ∀ (fuel : Nat) (ht : Heap) (lastC : Nat) (np : Option Nat) (ht1 : Heap) (lastR : Nat),
      cloneDeepAux fuel ht lastC np = some (ht1, lastR) → lastC < ht.objs.length →
      ht.objs.length ≤ ht1.objs.length ∧ lastC ≤ lastR ∧ lastR < ht1.objs.length ∧
      (∀ x, x < lastC → protoAt ht1 x = protoAt ht x) ∧
      (∀ a cl, OwnHIHas ht a cl → OwnHIHas ht1 a cl) ∧
      (∀ p0 n, UpChain ht n p0 lastC → ∃ n2, UpChain ht1 n2 p0 lastR) := by
  intro fuel
  induction fuel with
  | zero =>
    intro ht lastC np ht1 lastR hc hlt
    cases np with
    | none =>
      rw [cloneDeepAux] at hc
      cases hc
      exact ⟨Nat.le_refl _, Nat.le_refl _, hlt, fun _ _ => rfl, fun _ _ hx => hx,
        fun p0 n hch => ⟨n, hch⟩⟩
    | some np =>
      rw [cloneDeepAux] at hc
      by_cases hobj : np = ht.objectProto
      · rw [if_pos hobj] at hc
        cases hc
        exact ⟨Nat.le_refl _, Nat.le_refl _, hlt, fun _ _ => rfl, fun _ _ hx => hx,
          fun p0 n hch => ⟨n, hch⟩⟩
      · rw [if_neg hobj] at hc; cases hc
  | succ fuel ih =>
    intro ht lastC np ht1 lastR hc hlt
    cases np with
    | none =>
      rw [cloneDeepAux] at hc
      cases hc
      exact ⟨Nat.le_refl _, Nat.le_refl _, hlt, fun _ _ => rfl, fun _ _ hx => hx,
        fun p0 n hch => ⟨n, hch⟩⟩
    | some np =>
      rw [cloneDeepAux] at hc
      by_cases hobj : np = ht.objectProto
      · rw [if_pos hobj] at hc
        cases hc
        exact ⟨Nat.le_refl _, Nat.le_refl _, hlt, fun _ _ => rfl, fun _ _ hx => hx,
          fun p0 n hch => ⟨n, hch⟩⟩
      · rw [if_neg hobj] at hc
        cases hcp : clonePrototype ht np with
        | none => simp only [hcp] at hc; cases hc
        | some pr =>
          obtain ⟨htA, npClone⟩ := pr
          simp only [hcp] at hc
          cases hsp : setProtoOf htA lastC npClone with
          | none => simp only [hsp] at hc; cases hc
          | some ht2 =>
            simp only [hsp] at hc
            obtain ⟨hclone, _⟩ := clonePrototype_inv ht np htA npClone hcp
            have hlenA := clonePrototype_len ht np htA npClone hcp
            obtain ⟨hlen2, _, _, _, _⟩ := setProtoOf_spec htA lastC npClone ht2 hsp
            have hlt2 : npClone < ht2.objs.length := by omega
            obtain ⟨hle, hlr1, hlr2, hpres, hown, hchain⟩ :=
              ih ht2 npClone _ ht1 lastR hc hlt2
            refine ⟨by omega, by omega, hlr2, ?_, ?_, ?_⟩
            · intro x hx
              rw [hpres x (by omega), setProtoOf_protoAt_ne htA lastC npClone ht2 hsp x (by omega),
                clonePrototype_protoAt ht np htA npClone hcp x (by omega)]
            · intro a cl ha
              exact hown a cl (ownHIHas_setProtoOf htA lastC npClone ht2 hsp a cl
                (ownHIHas_clonePrototype ht np htA npClone hcp a cl ha))
            · intro p0 n hch
              have hchA : UpChain htA n p0 lastC :=
                upChain_preserve ht htA n p0 lastC hch
                  (fun x hx => clonePrototype_protoAt ht np htA npClone hcp x (by omega))
              have hch2 : UpChain ht2 n p0 lastC :=
                upChain_preserve htA ht2 n p0 lastC hchA
                  (fun x hx => setProtoOf_protoAt_ne htA lastC npClone ht2 hsp x (by omega))
              exact hchain p0 (n + 1) (upChain_snoc ht2 n p0 lastC hch2 npClone
                (setProtoOf_protoAt_self htA lastC npClone ht2 hsp) (by omega))

/-- `clonePrototypeDeep`, fully tracked: the head duplicate is the next
free address, an increasing chain runs from it to the returned
`lastPrototype`, pre-existing prototype links and wrapper nests are kept,
and the constructor the cloned table points back at ends up owning a
wrapper that recognizes the head duplicate. -/
theorem clonePrototypeDeep_inv (ht : Heap) (pa : Nat) (ht1 : Heap) (head lastR : Nat)
    (hc : clonePrototypeDeep ht pa = some (ht1, head, lastR)) :
    head = ht.objs.length ∧ ht.objs.length < ht1.objs.length ∧ head ≤ lastR ∧
    lastR < ht1.objs.length ∧
    (∀ x, x < ht.objs.length → protoAt ht1 x = protoAt ht x) ∧
    (∀ a cl, OwnHIHas ht a cl → OwnHIHas ht1 a cl) ∧
    (∃ n2, UpChain ht1 n2 head lastR) ∧
    (∀ c, getPropValue ht pa (Key.str "constructor") = some (Value.addr c) →
      OwnHIHas ht1 c head) := by
  rw [clonePrototypeDeep.eq_def] at hc
  cases hcp : clonePrototype ht pa with
  | none => simp only [hcp] at hc; cases hc
  | some pr =>
    obtain ⟨htA, clone⟩ := pr
    simp only [hcp] at hc
    cases hda : cloneDeepAux ht.objs.length htA clone ((heapGet htA pa).bind Obj.proto) with
    | none => simp only [hda] at hc; cases hc
    | some pr2 =>
      obtain ⟨ht2, lastP⟩ := pr2
      simp only [hda] at hc
      cases hc
      obtain ⟨hclone, _⟩ := clonePrototype_inv ht pa htA head hcp
      have hlenA := clonePrototype_len ht pa htA head hcp
      obtain ⟨hle, hlr1, hlr2, hpres, hown, hchain⟩ :=
        cloneDeepAux_inv ht.objs.length htA head _ ht1 lastR hda (by omega)
      refine ⟨hclone, by omega, by omega, hlr2, ?_, ?_, ?_, ?_⟩
      · intro x hx
        rw [hpres x (by omega), clonePrototype_protoAt ht pa htA head hcp x hx]
      · intro a cl ha
        exact hown a cl (ownHIHas_clonePrototype ht pa htA head hcp a cl ha)
      · exact hchain head 0 (UpChain.refl head)
      · intro c hcv
        exact hown c head (clonePrototype_installs ht pa htA head hcp c hcv)

/-- The statics pass writes only to `create`: lengths, prototype links
and every other object are untouched, and `create`'s non-writable own
properties survive. -/
theorem staticsLoop_others :
    ∀ (cs : List Ctor) (ht : Heap) (a : Nat) (ht1 : Heap),
      staticsLoop ht a cs = some ht1 →
      ht1.objs.length = ht.objs.length ∧
      (∀ b, b ≠ a → heapGet ht1 b = heapGet ht b) ∧
      (∀ x, protoAt ht1 x = protoAt ht x) ∧
      (∀ o, heapGet ht a = some o → ∀ k d, getOwnD o.props k = some d → d.writable = false →
        ∃ o2, heapGet ht1 a = some o2 ∧ getOwnD o2.props k = some d) := by
  intro cs
  induction cs with
  | nil =>
    intro ht a ht1 hc
    rw [staticsLoop] at hc
    cases hc
    exact ⟨rfl, fun _ _ => rfl, fun _ => rfl, fun o ho k d hd _ => ⟨o, ho, hd⟩⟩
  | cons c cs ihs =>
    intro ht a ht1 hc
    rw [staticsLoop] at hc
    cases htg : heapGet ht a with
    | none => simp only [htg] at hc; cases hc
    | some tgt =>
      simp only [htg] at hc
      cases hsg : heapGet ht c.addr with
      | none => simp only [hsg] at hc; cases hc
      | some src =>
        simp only [hsg] at hc
        cases haa : assignAll tgt.props src.props with
        | none => simp only [haa] at hc; cases hc
        | some props2 =>
          simp only [haa] at hc
          have hlt := heapGet_lt ht a tgt htg
          obtain ⟨hlen, hother, hproto, hkeep⟩ :=
            ihs (heapSet ht a { tgt with props := props2 }) a ht1 hc
          refine ⟨by rw [hlen]; simp [heapSet], ?_, ?_, ?_⟩
          · intro b hb
            rw [hother b hb, heapGet_set_ne ht a b _ (fun hab => hb hab.symm)]
          · intro x
            rw [hproto x]
            by_cases hxa : x = a
            · rw [hxa, protoAt, protoAt, heapGet_set_self ht a _ hlt, htg]
              rfl
            · rw [protoAt, protoAt, heapGet_set_ne ht a x _ (fun hab => hxa hab.symm)]
          · intro o ho k d hd hw
            have heq : tgt = o := Option.some.inj ho
            subst heq
            exact hkeep { tgt with props := props2 } (heapGet_set_self ht a _ hlt) k d
              (assignAll_keep_nonwritable src.props tgt.props props2 haa k d hd hw) hw

/-- The class shape survives a frame extension (the only own-property
write to a pre-existing object targets `Symbol.hasInstance`). -/
theorem classShape_transport (h0 ht : Heap) (I : FramedExt h0 ht) (c : Nat)
    (hs : ClassShape h0 c) : ClassShape ht c := by
  obtain ⟨o, d, pc, po, d2, ho, hd, hdv, hpo, hd2, hd2v⟩ := hs
  obtain ⟨o2, ho2, _, _, hkeep, _, _⟩ := I.old c o ho
  obtain ⟨po2, hpo2, _, _, hkeep2, _, _⟩ := I.old pc po hpo
  refine ⟨o2, d, pc, po2, d2, ho2, ?_, hdv, hpo2, ?_, hd2v⟩
  · rw [hkeep _ (by intro hcon; cases hcon)]
    exact hd
  · rw [hkeep2 _ (by intro hcon; cases hcon)]
    exact hd2

/-- What the composition reads off a class-shaped constructor: its
`prototype` address and, from the member table, the back-pointer to the
constructor itself. -/
theorem classShape_reads (h : Heap) (c : Nat) (hs : ClassShape h c) :
    ∃ pc, protoAddrVal h c = some pc ∧
      getPropValue h pc (Key.str "constructor") = some (Value.addr c) := by
  obtain ⟨o, d, pc, po, d2, ho, hd, hdv, hpo, hd2, hd2v⟩ := hs
  have h1 : getPropValue h c (Key.str "prototype") = some (Value.addr pc) := by
    rw [getPropValue, getProp_of_own h c o _ d ho hd]
    simp [hdv]
  have h2 : getPropValue h pc (Key.str "constructor") = some (Value.addr c) := by
    rw [getPropValue, getProp_of_own h pc po _ d2 hpo hd2]
    simp [hd2v]
  refine ⟨pc, ?_, h2⟩
  rw [protoAddrVal, h1]


/-- The chain loop of `Mix`, fully tracked: each iteration deep-clones
the next source's member table, links the head duplicate after the
running `lastPrototype` (extending the increasing chain from the first
head duplicate), and leaves the source's constructor owning a wrapper
that recognizes its head duplicate — which stays on the chain even
though the middle sources' deeper duplicates are orphaned. -/
theorem mixChainLoop_inv (h0 : Heap) (W : wfClosed h0 = true) :
    ∀ (todo : List Ctor) (ht : Heap) (lastP : Nat) (ht1 : Heap) (lastR : Nat),
      mixChainLoop ht lastP todo = some (ht1, lastR) →
      FramedExt h0 ht →
      (∀ c ∈ todo, ClassShape h0 c.addr) →
      h0.objs.length ≤ lastP → lastP < ht.objs.length →
      ∀ (p0 n : Nat), UpChain ht n p0 lastP →
      ht.objs.length ≤ ht1.objs.length ∧ lastP ≤ lastR ∧ lastR < ht1.objs.length ∧
      (∀ x, x < lastP → protoAt ht1 x = protoAt ht x) ∧
      (∀ a cl, OwnHIHas ht a cl → OwnHIHas ht1 a cl) ∧
      (∃ n2, UpChain ht1 n2 p0 lastR) ∧
      (∀ c ∈ todo, ∃ cl m, OwnHIHas ht1 c.addr cl ∧ UpChain ht1 m p0 cl ∧ cl ≤ lastR) := by
  intro todo
  induction todo with
  | nil =>
    intro ht lastP ht1 lastR hc I hsh hfr hlt p0 n hch
    rw [mixChainLoop] at hc
    cases hc
    exact ⟨Nat.le_refl _, Nat.le_refl _, hlt, fun _ _ => rfl, fun _ _ hx => hx, ⟨n, hch⟩,
      fun c hcm => absurd hcm (List.not_mem_nil c)⟩
  | cons c cs ih =>
    intro ht lastP ht1 lastR hc I hsh hfr hlt p0 n hch
    rw [mixChainLoop] at hc
    cases hpc : protoAddrVal ht c.addr with
    | none => simp only [hpc] at hc; cases hc
    | some pc =>
      simp only [hpc] at hc
      cases hdeep : clonePrototypeDeep ht pc with
      | none => simp only [hdeep] at hc; cases hc
      | some pr =>
        obtain ⟨htA, headClone, lastOfClone⟩ := pr
        simp only [hdeep] at hc
        cases hsp : setProtoOf htA lastP headClone with
        | none => simp only [hsp] at hc; cases hc
        | some ht2 =>
          simp only [hsp] at hc
          cases hnl : (heapGet ht2 lastP).bind Obj.proto with
          | none => simp only [hnl] at hc; cases hc
          | some newLast =>
            simp only [hnl] at hc
            obtain ⟨hlen2, _, _, hother2, o, o2, hgo, hgo2, hprops2, hext2, hproto2⟩ :=
              setProtoOf_spec htA lastP headClone ht2 hsp
            rw [hgo2] at hnl
            simp only [Option.bind, hproto2] at hnl
            cases hnl
            have hshc : ClassShape ht c.addr :=
              classShape_transport h0 ht I c.addr (hsh c (List.mem_cons_self c cs))
            obtain ⟨pc2, hpc2, hcv⟩ := classShape_reads ht c.addr hshc
            have hpceq : pc2 = pc := Option.some.inj (hpc2.symm.trans hpc)
            rw [hpceq] at hcv
            obtain ⟨hheadEq, hlenA, hh_le_l, hlofA, hpresA, hownA, _hchA, hinst⟩ :=
              clonePrototypeDeep_inv ht pc htA headClone lastOfClone hdeep
            have hOwnHead : OwnHIHas htA c.addr headClone := hinst c.addr hcv
            obtain ⟨IA, _, _, _⟩ :=
              clonePrototypeDeep_frame h0 ht W I pc htA headClone lastOfClone hdeep
            have I2 : FramedExt h0 ht2 :=
              framedExt_setProto_fresh h0 htA ht2 lastP headClone IA hfr hsp
            have hchA2 : UpChain htA n p0 lastP :=
              upChain_preserve ht htA n p0 lastP hch (fun x hx => hpresA x (by omega))
            have hch2 : UpChain ht2 n p0 lastP :=
              upChain_preserve htA ht2 n p0 lastP hchA2
                (fun x hx => setProtoOf_protoAt_ne htA lastP headClone ht2 hsp x (by omega))
            have hchHead : UpChain ht2 (n + 1) p0 headClone :=
              upChain_snoc ht2 n p0 lastP hch2 headClone
                (setProtoOf_protoAt_self htA lastP headClone ht2 hsp) (by omega)
            have hheadLt2 : headClone < ht2.objs.length := by omega
            have hfr2 : h0.objs.length ≤ headClone := by omega
            obtain ⟨hleIH, hlr1IH, hlr2IH, hpresIH, hownIH, hchainIH, hsrcIH⟩ :=
              ih ht2 headClone ht1 lastR hc I2
                (fun c2 hc2 => hsh c2 (List.mem_cons_of_mem c hc2)) hfr2 hheadLt2 p0 (n + 1)
                hchHead
            refine ⟨by omega, by omega, hlr2IH, ?_, ?_, hchainIH, ?_⟩
            · intro x hx
              rw [hpresIH x (by omega),
                setProtoOf_protoAt_ne htA lastP headClone ht2 hsp x (by omega),
                hpresA x (by omega)]
            · intro a cl ha
              exact hownIH a cl
                (ownHIHas_setProtoOf htA lastP headClone ht2 hsp a cl (hownA a cl ha))
            · intro c2 hc2
              rcases List.mem_cons.mp hc2 with rfl | hc3
              · refine ⟨headClone, n + 1, hownIH c2.addr headClone
                  (ownHIHas_setProtoOf htA lastP headClone ht2 hsp c2.addr headClone hOwnHead),
                  upChain_preserve ht2 ht1 (n + 1) p0 headClone hchHead
                    (fun x hx => hpresIH x hx), by omega⟩
              · exact hsrcIH c2 hc3


/-- C1: every instance constructed from a composite of at least two
class-shaped sources passes the dynamic type-membership check (the
library's `check`, i.e. `instanceof`) for every source in the list.  The
head duplicate of each source's member table stays linked on the
composite instance's prototype chain, and each source's augmented
`Symbol.hasInstance` nest recognizes that duplicate. -/
theorem mix_composite_passes_all_sources (h : Heap) (c0 c1 : Ctor) (rest : List Ctor)
    (h6 : Heap) (create : Ctor) (W : wfClosed h = true)
    (hshape : ∀ c ∈ c0 :: c1 :: rest, ClassShape h c.addr)
    (hMix : Mix h (c0 :: c1 :: rest) = some (h6, create))
    (gs : List (List Value)) (h7 : Heap) (inst : Nat)
    (hNew : newInstance h6 create (InitArgs.groups gs) = some (h7, inst)) :
    ∀ c ∈ c0 :: c1 :: rest, instanceOf h7 inst c.addr = true := by
  obtain ⟨lastC, pc0, h1, proto0, last0, h2, lastP, lcp, h3, h5,
    hlast, hpc0, hdeep, hloop, hlcp, hset, hset2, hstat, hcr⟩ :=
    Mix_inv h c0 c1 rest h6 create hMix
  obtain ⟨pcr, hpcr, hcv0⟩ := classShape_reads h c0.addr (hshape c0 (List.mem_cons_self c0 _))
  have hpceq : pcr = pc0 := Option.some.inj (hpcr.symm.trans hpc0)
  rw [hpceq] at hcv0
  obtain ⟨hp0Eq, hlen1, hp0le, hlast0lt, hpres1, hown1, hch1, hinst1⟩ :=
    clonePrototypeDeep_inv h pc0 h1 proto0 last0 hdeep
  have hOwn0 : OwnHIHas h1 c0.addr proto0 := hinst1 c0.addr hcv0
  obtain ⟨n1, hch1c⟩ := hch1
  obtain ⟨I1, _, _, _⟩ :=
    clonePrototypeDeep_frame h h W (framedExt_refl h) pc0 h1 proto0 last0 hdeep
  obtain ⟨hle2, hlp1, hlp2, hpres2, hown2, hchain2, hsrc2⟩ :=
    mixChainLoop_inv h W (c1 :: rest) h1 last0 h2 lastP hloop I1
      (fun c2 hc2 => hshape c2 (List.mem_cons_of_mem c0 hc2))
      (by omega) hlast0lt proto0 n1 hch1c
  have hall2 : ∀ c2 ∈ c0 :: c1 :: rest,
      ∃ cl m, OwnHIHas h2 c2.addr cl ∧ UpChain h2 m proto0 cl ∧ cl ≤ lastP := by
    intro c2 hc2
    rcases List.mem_cons.mp hc2 with rfl | hc3
    · exact ⟨proto0, 0, hown2 c2.addr proto0 hOwn0, UpChain.refl proto0, by omega⟩
    · exact hsrc2 c2 hc3
  obtain ⟨hlen3, _, _, hother3, _⟩ := setProtoOf_spec h2 lastP lcp h3 hset
  have hall3 : ∀ c2 ∈ c0 :: c1 :: rest,
      ∃ cl m, OwnHIHas h3 c2.addr cl ∧ UpChain h3 m proto0 cl ∧ cl ≤ lastP := by
    intro c2 hc2
    obtain ⟨cl, m, hOwn, hCh, hcle⟩ := hall2 c2 hc2
    exact ⟨cl, m, ownHIHas_setProtoOf h2 lastP lcp h3 hset c2.addr cl hOwn,
      upChain_preserve h2 h3 m proto0 cl hCh
        (fun x hx => setProtoOf_protoAt_ne h2 lastP lcp h3 hset x (by omega)), hcle⟩
  have hA4 : allocCreate h3 pc0 (c0 :: c1 :: rest) c0
      = { h3 with objs := h3.objs ++
            [createProtoObjOf h3 pc0, createFnObjOf h3 (c0 :: c1 :: rest) c0] } := rfl
  have hlen4 : (allocCreate h3 pc0 (c0 :: c1 :: rest) c0).objs.length = h3.objs.length + 2 := by
    simp [allocCreate]
  obtain ⟨hlen5, _, _, hother5, _⟩ :=
    setProtoOf_spec (allocCreate h3 pc0 (c0 :: c1 :: rest) c0) h3.objs.length proto0 h5 hset2
  have hall5 : ∀ c2 ∈ c0 :: c1 :: rest,
      ∃ cl m, OwnHIHas h5 c2.addr cl ∧ UpChain h5 m proto0 cl ∧ cl ≤ lastP := by
    intro c2 hc2
    obtain ⟨cl, m, hOwn, hCh, hcle⟩ := hall3 c2 hc2
    have hOwn4 : OwnHIHas (allocCreate h3 pc0 (c0 :: c1 :: rest) c0) c2.addr cl := by
      rw [hA4]
      exact ownHIHas_append h3 _ c2.addr cl hOwn
    have hCh4 : UpChain (allocCreate h3 pc0 (c0 :: c1 :: rest) c0) m proto0 cl := by
      rw [hA4]
      exact upChain_preserve h3 _ m proto0 cl hCh (fun x hx => protoAt_append h3 _ x (by omega))
    exact ⟨cl, m, ownHIHas_setProtoOf _ h3.objs.length proto0 h5 hset2 c2.addr cl hOwn4,
      upChain_preserve _ h5 m proto0 cl hCh4
        (fun x hx => setProtoOf_protoAt_ne _ h3.objs.length proto0 h5 hset2 x (by omega)), hcle⟩
  have hget4 : heapGet (allocCreate h3 pc0 (c0 :: c1 :: rest) c0) (h3.objs.length + 1)
      = some (createFnObjOf h3 (c0 :: c1 :: rest) c0) := by
    rw [allocCreate, heapGet]
    rw [List.getElem?_append_right (by omega)]
    simp
  have hget5 : heapGet h5 (h3.objs.length + 1) = some (createFnObjOf h3 (c0 :: c1 :: rest) c0) := by
    rw [hother5 (h3.objs.length + 1) (by omega)]
    exact hget4
  obtain ⟨hlen6, hother6, hproto6, hkeep6⟩ :=
    staticsLoop_others (c0 :: c1 :: rest) h5 (h3.objs.length + 1) h6 hstat
  have hall6 : ∀ c2 ∈ c0 :: c1 :: rest,
      ∃ cl m, OwnHIHas h6 c2.addr cl ∧ UpChain h6 m proto0 cl ∧ cl ≤ lastP := by
    intro c2 hc2
    obtain ⟨cl, m, hOwn, hCh, hcle⟩ := hall5 c2 hc2
    have hlt2 : c2.addr < h.objs.length := by
      obtain ⟨o, _, _, _, _, ho, _⟩ := hshape c2 hc2
      exact heapGet_lt h c2.addr o ho
    obtain ⟨o, w, ho, hw, hm⟩ := hOwn
    exact ⟨cl, m, ⟨o, w, by rw [hother6 c2.addr (by omega)]; exact ho, hw, hm⟩,
      upChain_preserve h5 h6 m proto0 cl hCh (fun x _ => hproto6 x), hcle⟩
  obtain ⟨co, hco, hcoP⟩ := hkeep6 (createFnObjOf h3 (c0 :: c1 :: rest) c0) hget5
    (Key.str "prototype") ⟨Value.addr h3.objs.length, false, false, false⟩
    (by simp [createFnObjOf, getOwnD]) rfl
  have hPv : getPropValue h6 (h3.objs.length + 1) (Key.str "prototype")
      = some (Value.addr h3.objs.length) := by
    rw [getPropValue, getProp_of_own h6 _ co _ _ hco hcoP]
    rfl
  have hPA : protoAddrVal h6 (h3.objs.length + 1) = some h3.objs.length := by
    rw [protoAddrVal, hPv]
  subst hcr
  rw [newInstance] at hNew
  simp only [hPA] at hNew
  cases hPs : dispatchProps (c0 :: c1 :: rest) (InitArgs.groups gs) with
  | none => simp only [hPs] at hNew; cases hNew
  | some P =>
    simp only [hPs] at hNew
    cases hNew
    intro c2 hc2
    obtain ⟨cl, m, hOwn, hCh, hcle⟩ := hall6 c2 hc2
    have hOwn7 : OwnHIHas { h6 with objs := h6.objs ++ [⟨P, some h3.objs.length, true⟩] }
        c2.addr cl := ownHIHas_append h6 _ c2.addr cl hOwn
    have hCh7 : UpChain { h6 with objs := h6.objs ++ [⟨P, some h3.objs.length, true⟩] }
        m proto0 cl :=
      upChain_preserve h6 _ m proto0 cl hCh (fun x hx => protoAt_append h6 _ x (by omega))
    obtain ⟨oc, w, hoc, hw, hm⟩ := hOwn7
    have hv : getPropValue { h6 with objs := h6.objs ++ [⟨P, some h3.objs.length, true⟩] }
        c2.addr Key.hasInstanceSym = some (Value.hi w) := by
      rw [getPropValue, getProp_of_own _ c2.addr oc _ _ hoc hw]
      rfl
    simp only [instanceOf, hv]
    refine runHI_of_cloneSet _ h6.objs.length w cl hm ?_ (some c2.addr)
    rw [hasPrototype]
    have hstep : (heapGet { h6 with objs := h6.objs ++ [⟨P, some h3.objs.length, true⟩] }
        h6.objs.length).bind Obj.proto = some h3.objs.length := by
      rw [heapGet_append_self]
      rfl
    rw [hstep]
    have hlen7 : ({ h6 with objs := h6.objs ++ [⟨P, some h3.objs.length, true⟩] } : Heap).objs.length
        = h6.objs.length + 1 := by simp
    rw [hlen7]
    simp only [hasProtoAux]
    by_cases hcc : h3.objs.length = cl
    · rw [if_pos hcc]
    · rw [if_neg hcc]
      have hcp7 : (heapGet { h6 with objs := h6.objs ++ [⟨P, some h3.objs.length, true⟩] }
          h3.objs.length).bind Obj.proto = some proto0 := by
        have hx : protoAt { h6 with objs := h6.objs ++ [⟨P, some h3.objs.length, true⟩] }
            h3.objs.length = some proto0 := by
          rw [protoAt_append h6 _ _ (by omega), hproto6 h3.objs.length]
          exact setProtoOf_protoAt_self _ h3.objs.length proto0 h5 hset2
        exact hx
      rw [hcp7]
      refine upChain_hasProtoAux _ m proto0 cl hCh7 h6.objs.length ?_
      have := upChain_le { h6 with objs := h6.objs ++ [⟨P, some h3.objs.length, true⟩] }
        m proto0 cl hCh7
      omega


/-- Witness for C1 at a concrete input: the composite instance of
`Mix(Foo, Bar)` is `instanceof` both `Foo` and `Bar`. -/
theorem mix_composite_passes_all_sources_witness :
    instanceOf fooBarInstHeap 10 fooStep.2.addr = true ∧
    instanceOf fooBarInstHeap 10 barStep.2.addr = true := by
  have happ := mix_composite_passes_all_sources barStep.1 fooStep.2 barStep.2 [] fooBarHeap
    ⟨9, dispatchProps [fooStep.2, barStep.2]⟩ (by decide)
    (by
      intro c hc
      rcases List.mem_cons.mp hc with rfl | hc2
      · exact ⟨_, _, 2, _, _, rfl, rfl, rfl, rfl, rfl, rfl⟩
      · rcases List.mem_cons.mp hc2 with rfl | hc3
        · exact ⟨_, _, 4, _, _, rfl, rfl, rfl, rfl, rfl, rfl⟩
        · exact absurd hc3 (List.not_mem_nil c))
    rfl [[], []] fooBarInstHeap 10 rfl
  exact ⟨happ fooStep.2 (List.mem_cons_self _ _),
    happ barStep.2 (List.mem_cons_of_mem _ (List.mem_cons_self _ _))⟩


/-! ### C7 — the augmented check produces no false positives -/

/-- A wrapper nest called detached says yes only through one of its
recognized duplicates: the saved built-in predicate at the bottom,
invoked with `this` undefined, contributes `false`. -/
theorem runHI_none_false (h : Heap) (x : Nat) :
    ∀ f : HIFun, (∀ cl ∈ cloneSet f, hasPrototype h x cl = false) →
      runHI h f none x = false := by
  intro f
  induction f with
  | native => intro _; rfl
  | wrapperOrphan c =>
    intro hcl
    simpa [runHI] using hcl c (by simp [cloneSet])
  | wrapper g c ihg =>
    intro hcl
    simp only [runHI, Bool.or_eq_false_iff]
    exact ⟨ihg (fun cl hm => hcl cl (by simp [cloneSet, hm])),
      hcl c (by simp [cloneSet])⟩

/-- C7: no false positives.  For any object that is not a true instance
of the source (the source's member table is not on its lookup chain) and
was not built through any composition involving the source (none of the
member-table duplicates recognized by the source's augmented predicate
is on its lookup chain), the dynamic type-membership check returns
`false` — whatever nest of augmentations the source carries, including
none at all. -/
theorem check_no_false_positive (h : Heap) (x c : Nat)
    (hproto : ∀ p, protoAddrVal h c = some p → hasPrototype h x p = false)
    (hclones : ∀ f cl, getPropValue h c Key.hasInstanceSym = some (Value.hi f) →
      cl ∈ cloneSet f → hasPrototype h x cl = false) :
    instanceOf h x c = false := by
  have hord : ordinaryHasInstance h c x = false := by
    rw [ordinaryHasInstance]
    cases hp : getPropValue h c (Key.str "prototype") with
    | none => rfl
    | some v =>
      cases v with
      | addr p =>
        exact hproto p (by rw [protoAddrVal, hp])
      | undef => rfl
      | str s => rfl
      | int n => rfl
      | hi f => rfl
      | addrs l => rfl
  rw [instanceOf]
  cases hg : getPropValue h c Key.hasInstanceSym with
  | none => exact hord
  | some v =>
    cases v with
    | hi f =>
      cases f with
      | native =>
        simpa [runHI] using hord
      | wrapperOrphan cl =>
        simpa [runHI] using hclones (HIFun.wrapperOrphan cl) cl hg (by simp [cloneSet])
      | wrapper g cl =>
        simp only [runHI, Bool.or_eq_false_iff]
        exact ⟨runHI_none_false h x g
            (fun cl2 hm => hclones (HIFun.wrapper g cl) cl2 hg (by simp [cloneSet, hm])),
          hclones (HIFun.wrapper g cl) cl hg (by simp [cloneSet])⟩
    | undef => exact hord
    | str s => rfl
    | int n => rfl
    | addr b => rfl
    | addrs l => rfl

/-- Witness for C7 at a concrete input: after `Mix(Foo, Bar)`, the
pre-existing unrelated plain object at address 0 checks negative against
the augmented `Foo`. -/
theorem check_no_false_positive_witness :
    instanceOf fooBarHeap 0 fooStep.2.addr = false := by
  refine check_no_false_positive fooBarHeap 0 fooStep.2.addr ?_ ?_
  · intro p hp
    rw [show protoAddrVal fooBarHeap fooStep.2.addr = some 2 from rfl] at hp
    cases Option.some.inj hp
    decide
  · intro f cl hf hcl
    rw [show getPropValue fooBarHeap fooStep.2.addr Key.hasInstanceSym
        = some (Value.hi (HIFun.wrapper HIFun.native 6)) from rfl] at hf
    cases Option.some.inj hf
    simp [cloneSet] at hcl
    subst hcl
    decide

end Minimix
